import Mathlib

/-!
# Verification of the `conf` environment-variable configuration binder

This file embeds the Go package `conf` (files `conf.go`, `field.go`, and the
environment lookup in `env.go`) into Lean and proves properties of the
embedding.

The embedding is shallow: pure Go functions become Lean functions; the
reflective mutation of the destination struct becomes explicit state passing
(every stage returns the updated value).  Go `reflect.Value` handles held by
field descriptors become access paths into the root value.  Machine integers
are modeled with `Nat`/`Int` plus explicit range checks mirroring
`strconv`'s bit-size checks.  Fallible code returns `Except`/`Option`.

Scope of the value universe: the modeled destination types are strings,
signed/unsigned integers of a given bit width, booleans, slices, maps,
pointers and structs.  Self-deserializing types (`Setter`,
`encoding.TextUnmarshaler`, `encoding.BinaryUnmarshaler`), floating-point
fields and `time.Duration` fields are outside the modeled universe, so the
interface checks in `processField` (which are `nil` for every modeled type)
are omitted and the `time.Duration` special case inside the `Int64` branch
does not arise.  Strings are treated as their rune sequences; the Go code
only manipulates ASCII in the places the model exercises, where Go's
byte-wise and rune-wise views coincide.
-/

namespace Conf

/-! ## String primitives (models of the Go standard library functions used) -/

/-- Rune-level prefix test (model of the test `strings.HasPrefix` performs). -/
def listIsPre : List Char → List Char → Bool
  | [], _ => true
  | _ :: _, [] => false
  | a :: as_, b :: bs => a == b && listIsPre as_ bs

/-- Substring search helper: does `sub` occur in the haystack? -/
def containsAux (sub : List Char) : List Char → Bool
  | [] => sub.isEmpty
  | c :: rest => listIsPre sub (c :: rest) || containsAux sub rest

/-- Model of `strings.Contains`. -/
def goContains (s sub : String) : Bool :=
  containsAux sub.toList s.toList

/-- Model of `strings.HasPrefix`. -/
def goHasPre (s pre : String) : Bool :=
  listIsPre pre.toList s.toList

/-- Model of `strings.TrimPrefix`. -/
def goTrimPre (s pre : String) : String :=
  if goHasPre s pre then String.mk (s.toList.drop pre.toList.length) else s

/-- Split a rune list on a separator rune.  Always yields at least one group. -/
def splitOnChar (sep : Char) : List Char → List (List Char)
  | [] => [[]]
  | c :: rest =>
      let r := splitOnChar sep rest
      if c == sep then [] :: r
      else
        match r with
        | g :: gs => (c :: g) :: gs
        | [] => [[c]]

/-- Model of `strings.Split(s, sep)` for the one-rune separators the source
uses (`","`, `";"`, `":"`, `"_"`).  Go's semantics on an empty input,
`Split("", sep) = [""]`, is preserved. -/
def goSplit (s : String) (sep : Char) : List String :=
  (splitOnChar sep s.toList).map (fun g => String.mk g)

/-- Model of `strings.SplitN(s, sep, 2)`: split at the first occurrence of the
separator only; one part when the separator does not occur. -/
def splitN2Aux (sep : Char) : List Char → Option (List Char × List Char)
  | [] => none
  | c :: rest =>
      if c == sep then some ([], rest)
      else
        match splitN2Aux sep rest with
        | some (l, r) => some (c :: l, r)
        | none => none

/-- Model of `strings.SplitN(s, sep, 2)`. -/
def goSplitN2 (s : String) (sep : Char) : List String :=
  match splitN2Aux sep s.toList with
  | some (l, r) => [String.mk l, String.mk r]
  | none => [s]

/-- Model of `strings.Join`. -/
def goJoin : List String → String → String
  | [], _ => ""
  | [x], _ => x
  | x :: rest, sep => x ++ sep ++ goJoin rest sep

/-- Rune-list level rendering of `goJoin` over groups, used to relate
splitting and joining on the same separator. -/
def joinCharLists (sep : Char) : List (List Char) → List Char
  | [] => []
  | [x] => x
  | x :: y :: rest => x ++ sep :: joinCharLists sep (y :: rest)

/-- ASCII uppercasing of one rune.  `strings.ToUpper` is full Unicode; the
keys the source uppercases are ASCII, where the two agree. -/
def upperChar (c : Char) : Char :=
  if 'a' ≤ c ∧ c ≤ 'z' then Char.ofNat (c.toNat - 32) else c

/-- Model of `strings.ToUpper` (ASCII fragment). -/
def goToUpper (s : String) : String :=
  String.mk (s.toList.map upperChar)

/-- The whitespace set of `unicode.IsSpace` restricted to the Latin-1 space
characters (the source only ever trims ASCII). -/
def goIsSpace (c : Char) : Bool :=
  c == ' ' || c == '\t' || c == '\n' || (9 ≤ c.toNat && c.toNat ≤ 13) ||
    c.toNat == 0x85 || c.toNat == 0xA0

/-- Model of `strings.TrimSpace`. -/
def goTrimSpace (s : String) : String :=
  String.mk (((s.toList.dropWhile goIsSpace).reverse.dropWhile goIsSpace).reverse)

/-! ## Models of `strconv` parsing with base 0 (as invoked by `processField`) -/

/-- `lower(c)` from `strconv`: force the ASCII lowercase bit. -/
def goLowerChar (c : Char) : Char :=
  Char.ofNat (c.toNat ||| 32)

/-- Digit classification from `strconv.ParseUint`'s conversion loop. -/
def digitVal (c : Char) : Option Nat :=
  if '0' ≤ c ∧ c ≤ '9' then some (c.toNat - '0'.toNat)
  else if 'a' ≤ goLowerChar c ∧ goLowerChar c ≤ 'z' then
    some ((goLowerChar c).toNat - 'a'.toNat + 10)
  else none

/-- The state loop of `strconv`'s `underscoreOK`: `saw` is `'^'` at the start,
`'0'` after a digit or base prefix, `'_'` after an underscore, `'!'` otherwise. -/
def underscoreOKLoop (hex : Bool) : Char → List Char → Bool
  | saw, [] => saw != '_'
  | saw, c :: rest =>
      if ('0' ≤ c ∧ c ≤ '9') ∨ (hex ∧ 'a' ≤ goLowerChar c ∧ goLowerChar c ≤ 'f') then
        underscoreOKLoop hex '0' rest
      else if c == '_' then
        if saw != '0' then false else underscoreOKLoop hex '_' rest
      else if saw == '_' then false
      else underscoreOKLoop hex '!' rest

/-- Model of `strconv`'s `underscoreOK`: underscores are allowed only between
a base prefix and a digit or between successive digits. -/
def underscoreOK (s : List Char) : Bool :=
  let s1 := match s with
    | c :: rest => if c == '-' ∨ c == '+' then rest else c :: rest
    | [] => []
  match s1 with
  | c0 :: c1 :: rest =>
      if c0 == '0' ∧ (goLowerChar c1 == 'b' ∨ goLowerChar c1 == 'o' ∨ goLowerChar c1 == 'x') then
        underscoreOKLoop (goLowerChar c1 == 'x') '0' rest
      else underscoreOKLoop false '^' s1
  | _ => underscoreOKLoop false '^' s1

/-- The digit-accumulation loop of `strconv.ParseUint`.  `base0` enables the
underscore skipping of base-0 parsing; `cutoff` and `maxVal` mirror the
overflow checks for the requested bit size.  Returns the accumulated value
paired with whether an underscore was seen. -/
def parseUintLoop (base cutoff maxVal : Nat) (base0 : Bool) :
    List Char → Nat → Bool → Except String (Nat × Bool)
  | [], n, uscore => .ok (n, uscore)
  | c :: rest, n, uscore =>
      if c == '_' ∧ base0 then parseUintLoop base cutoff maxVal base0 rest n true
      else
        match digitVal c with
        | none => .error "invalid syntax"
        | some d =>
            if d ≥ base then .error "invalid syntax"
            else if n ≥ cutoff then .error "value out of range"
            else if n * base + d > maxVal then .error "value out of range"
            else parseUintLoop base cutoff maxVal base0 rest (n * base + d) uscore

/-- Base-prefix detection of `strconv.ParseUint` with base argument 0:
`0b`/`0o`/`0x` prefixes, legacy leading-`0` octal, else decimal.  Returns the
selected base and the remaining digits. -/
def parseUintBase0 (s : List Char) : Nat × List Char :=
  match s with
  | '0' :: c1 :: rest =>
      if goLowerChar c1 == 'b' ∧ rest ≠ [] then (2, rest)
      else if goLowerChar c1 == 'o' ∧ rest ≠ [] then (8, rest)
      else if goLowerChar c1 == 'x' ∧ rest ≠ [] then (16, rest)
      else (8, c1 :: rest)
  | '0' :: rest => (8, rest)
  | _ => (10, s)

/-- Model of `strconv.ParseUint(s, 0, bits)`. -/
def goParseUint (s : String) (bits : Nat) : Except String Nat :=
  let cs := s.toList
  if cs.isEmpty then .error "invalid syntax"
  else
    let (base, digits) := parseUintBase0 cs
    let maxVal := 2 ^ bits - 1
    let cutoff := (2 ^ 64 - 1) / base + 1
    match parseUintLoop base cutoff maxVal true digits 0 false with
    | .error e => .error e
    | .ok (n, uscore) =>
        if uscore ∧ ¬underscoreOK cs then .error "invalid syntax" else .ok n

/-- Model of `strconv.ParseInt(s, 0, bits)`: optional sign, then the unsigned
parse, then the signed range check against `2^(bits-1)`. -/
def goParseInt (s : String) (bits : Nat) : Except String Int :=
  match s.toList with
  | [] => .error "invalid syntax"
  | c :: rest =>
      let (neg, digits) :=
        if c == '+' then (false, rest)
        else if c == '-' then (true, rest)
        else (false, c :: rest)
      match goParseUint (String.mk digits) bits with
      | .error e => .error e
      | .ok un =>
          let cutoff := 2 ^ (bits - 1)
          if ¬neg ∧ un ≥ cutoff then .error "value out of range"
          else if neg ∧ un > cutoff then .error "value out of range"
          else .ok (if neg then -(un : Int) else (un : Int))

/-- Model of `strconv.ParseBool`. -/
def goParseBool (s : String) : Except String Bool :=
  if s == "1" ∨ s == "t" ∨ s == "T" ∨ s == "true" ∨ s == "TRUE" ∨ s == "True" then .ok true
  else if s == "0" ∨ s == "f" ∨ s == "F" ∨ s == "false" ∨ s == "FALSE" ∨ s == "False" then .ok false
  else .error "invalid syntax"

/-! ## Data model

`Ty` models the `reflect.Type` of a destination (restricted to the universe
described in the header); `Value` models a `reflect.Value` stored at some
destination.  Struct types carry, per field, the information `extractFields`
reads from `reflect.StructField`: the declared name, the `conf` struct tag
(`""` when absent, as `Tag.Get` reports), the result of `CanSet` (false for
unexported fields) and the `Anonymous` flag. -/

structure FieldMeta where
  name : String
  tag : String
  canSet : Bool
  anonymous : Bool

inductive Ty where
  | str
  | int (bits : Nat)
  | uint (bits : Nat)
  | bool
  | slice (elem : Ty)
  | map (key val : Ty)
  | ptr (elem : Ty)
  | strct (fields : List (FieldMeta × Ty))

inductive Value where
  | str (s : String)
  | int (n : Int)
  | uint (n : Nat)
  | bool (b : Bool)
  | slice (elems : List Value)
  | map (entries : List (Value × Value))
  | ptr (pointee : Option Value)
  | strct (fields : List Value)

mutual
/-- The zero `Value` of a type (model of `reflect.New(typ).Elem()`).  Nil and
empty slices/maps are identified: the model's `.slice []`/`.map []` stands
for Go's nil slice/map. -/
def zeroValue : Ty → Value
  | .str => .str ""
  | .int _ => .int 0
  | .uint _ => .uint 0
  | .bool => .bool false
  | .slice _ => .slice []
  | .map _ _ => .map []
  | .ptr _ => .ptr none
  | .strct fs => .strct (zeroFields fs)
def zeroFields : List (FieldMeta × Ty) → List Value
  | [] => []
  | f :: rest => zeroValue f.2 :: zeroFields rest
end

mutual
/-- Model of `reflect.Value.IsZero`.  Because the model identifies nil with
empty slices/maps, an empty slice/map counts as zero here; the binding
pipeline never produces a non-nil empty slice, and produces a non-nil empty
map only as the final assigned value of a field, so the distinction is not
observable through `Parse`. -/
def isZero : Value → Bool
  | .str s => s == ""
  | .int n => n == 0
  | .uint n => n == 0
  | .bool b => !b
  | .slice xs => xs.isEmpty
  | .map es => es.isEmpty
  | .ptr p => p.isNone
  | .strct fs => isZeroFields fs
def isZeroFields : List Value → Bool
  | [] => true
  | v :: rest => isZero v && isZeroFields rest
end

mutual
/-- Structural equality of values (model of Go's `==` on map keys). -/
def valueBeq : Value → Value → Bool
  | .str a, .str b => a == b
  | .int a, .int b => a == b
  | .uint a, .uint b => a == b
  | .bool a, .bool b => a == b
  | .slice a, .slice b => valueBeqList a b
  | .map a, .map b => valueBeqPairs a b
  | .ptr .none, .ptr .none => true
  | .ptr (.some a), .ptr (.some b) => valueBeq a b
  | .strct a, .strct b => valueBeqList a b
  | _, _ => false
def valueBeqList : List Value → List Value → Bool
  | [], [] => true
  | a :: as_, b :: bs => valueBeq a b && valueBeqList as_ bs
  | _, _ => false
def valueBeqPairs : List (Value × Value) → List (Value × Value) → Bool
  | [], [] => true
  | (k, v) :: as_, (k', v') :: bs => valueBeq k k' && valueBeq v v' && valueBeqPairs as_ bs
  | _, _ => false
end

/-- Model of `reflect.Value.SetMapIndex` on the model's insertion-ordered
association lists: overwrite an existing binding in place, else append. -/
def mapSet (m : List (Value × Value)) (k v : Value) : List (Value × Value) :=
  match m with
  | [] => [(k, v)]
  | (k', v') :: rest => if valueBeq k' k then (k, v) :: rest else (k', v') :: mapSet rest k v

/-! ## `camelSplit` (field.go lines 187-252) -/

/-- `charClass` (field.go lines 241-252); the `unicode` predicates are modeled
on their ASCII fragment, which is all the claims exercise.  0 = lower,
1 = upper, 2 = number, 3 = other, matching the `classLower`..`classOther`
constants. -/
def charClass (r : Char) : Nat :=
  if r.isLower then 0
  else if r.isUpper then 1
  else if r.isDigit then 2
  else 3

/-- `string(runes[a:b])` on a rune list. -/
def seg (runes : List Char) (a b : Nat) : String :=
  String.mk ((runes.drop a).take (b - a))

/-- The indexed loop of `camelSplit` (field.go lines 203-229), with the
remaining runes as the structural argument; `i` is the current index,
`lastIdx`/`lastClass` and `out` are the loop state. -/
def camelLoop (runes : List Char) (n : Nat) :
    List Char → Nat → Nat → Nat → List String → List String
  | [], _, _, _, out => out
  | r :: rest, i, lastIdx, lastClass, out =>
      let cls := charClass r
      let (out1, lastIdx1) :=
        if cls != lastClass then
          if lastClass == 1 && cls != 2 then
            if i - lastIdx > 1 then (out ++ [seg runes lastIdx (i - 1)], i - 1)
            else (out, lastIdx)
          else (out ++ [seg runes lastIdx i], i)
        else (out, lastIdx)
      let out2 := if i == n - 1 then out1 ++ [seg runes lastIdx1 n] else out1
      camelLoop runes n rest (i + 1) lastIdx1 cls out2

/-- `camelSplit` (field.go lines 187-232).  Go's short-string guard uses the
byte length; on the one-rune multi-byte strings where that differs from the
rune length the loop produces `[src]` as well, so using the rune length is
observationally equal. -/
def camelSplit (src : String) : List String :=
  if src == "" then []
  else if src.toList.length < 2 then [src]
  else
    let runes := src.toList
    camelLoop runes runes.length runes 0 0 (charClass (runes.headD ' ')) []

/-! ## Tag parsing (field.go lines 143-184) -/

structure FieldOptions where
  help : String := ""
  defaultVal : String := ""
  envName : String := ""
  required : Bool := false
deriving DecidableEq

/-- The clause loop of `parseTag` (field.go lines 151-176). -/
def parseTagLoop : List String → FieldOptions → Except String FieldOptions
  | [], f => .ok f
  | tagPart :: rest, f =>
      match goSplitN2 tagPart ':' with
      | [tagProp] =>
          parseTagLoop rest (if tagProp == "required" then { f with required := true } else f)
      | [tagProp, rawVal] =>
          let tagPropVal := goTrimSpace rawVal
          if tagPropVal == "" then .error ("tag \"" ++ tagProp ++ "\" missing value")
          else
            parseTagLoop rest
              (if tagProp == "default" then { f with defaultVal := tagPropVal }
               else if tagProp == "env" then { f with envName := tagPropVal }
               else if tagProp == "help" then { f with help := tagPropVal }
               else f)
      | _ => .ok f

/-- `parseTag` (field.go lines 143-184): split the directive on commas,
process each clause, then the `required`/`default` exclusivity check. -/
def parseTag (tagStr : String) : Except String FieldOptions :=
  if tagStr == "" then .ok {}
  else
    match parseTagLoop (goSplit tagStr ',') {} with
    | .error e => .error e
    | .ok f =>
        if f.required && f.defaultVal != "" then
          .error "cannot set both `required` and `default`"
        else .ok f

/-- Model of `reflect.Type.String()` for the modeled universe, used only to
fill the `typeName` component of field errors (no claim inspects it).  Go
prints named integer types by their declared width; the model always prints
the width. -/
def tyString : Ty → String
  | .str => "string"
  | .int bits => "int" ++ toString bits
  | .uint bits => "uint" ++ toString bits
  | .bool => "bool"
  | .slice t => "[]" ++ tyString t
  | .map k v => "map[" ++ tyString k ++ "]" ++ tyString v
  | .ptr t => "*" ++ tyString t
  | .strct _ => "struct"

/-! ## The coercion stage: `processField` (field.go lines 288-399)

The Go function mutates the `reflect.Value` it is handed; the model takes the
destination's type and current value and returns the new value.  Go's code
unwraps at most one pointer level (lines 291-297, allocating when nil), then
performs the default-mode zero check on the unwrapped value (line 299), then
dispatches on the unwrapped kind (lines 316-396).  Slice elements and map
keys/values are coerced by recursive `processField` calls on freshly
allocated zero elements (lines 362 and 379-389).

The Lean functions take an additional fuel argument so that the mixed
recursion (structural on the type for nesting, on the element list for
slices and maps) is primitive recursion that the kernel evaluates.  The fuel
is a pure modeling device: `processField` below instantiates it with a bound
that dominates the recursion depth, every theorem about a successful or
failing coercion is stated through `processField` at that fixed bound, and
no reachable execution consumes it (a run that did would surface as the
distinguished `"recursion limit"` result, which none of the verified runs
produce). -/

mutual
/-- `processField` (field.go lines 288-399) at a given fuel: unwrap one
pointer level, allocating a zero pointee when the pointer is nil (lines
291-297), then run the post-unwrap body on the pointee. -/
def processFieldF : Nat → Bool → String → Ty → Value → Except String Value
  | 0, _, _, _, _ => .error "recursion limit"
  | fuel + 1, settingDefault, value, ty, field =>
      match ty with
      | .ptr inner =>
          let pointee :=
            match field with
            | .ptr (some p) => p
            | _ => zeroValue inner
          (processFieldAuxF fuel settingDefault value inner pointee).map (fun p => .ptr (some p))
      | t => processFieldAuxF fuel settingDefault value t field

/-- The post-unwrap body of `processField`: the default-mode skip (line 299)
followed by the kind dispatch (lines 316-396).  A pointer or struct kind
reaching the dispatch falls into Go's `default` branch (`unsupported type`),
since the modeled universe has no self-deserializing types. -/
def processFieldAuxF : Nat → Bool → String → Ty → Value → Except String Value
  | 0, _, _, _, _ => .error "recursion limit"
  | fuel + 1, settingDefault, value, ty, field =>
      if settingDefault && !(isZero field) then .ok field
      else
        match ty with
        | .str => .ok (.str value)
        | .int bits => (goParseInt value bits).map .int
        | .uint bits => (goParseUint value bits).map .uint
        | .bool => (goParseBool value).map .bool
        | .slice elemTy => (processElemsF fuel elemTy (goSplit value ';')).map .slice
        | .map kTy vTy =>
            if (goTrimSpace value).toList.length != 0 then
              (processPairsF fuel kTy vTy (goSplit value ';') []).map .map
            else .ok (.map [])
        | .ptr inner => .error ("unsupported type: \"" ++ tyString (Ty.ptr inner) ++ "\"")
        | .strct fs => .error ("unsupported type: \"" ++ tyString (Ty.strct fs) ++ "\"")

/-- The slice-element loop (field.go lines 358-368): `MakeSlice` with one
zero element per split part, each coerced by a recursive `processField` call
with default mode off. -/
def processElemsF : Nat → Ty → List String → Except String (List Value)
  | 0, _, _ => .error "recursion limit"
  | _ + 1, _, [] => .ok []
  | fuel + 1, elemTy, v :: rest => do
      let x ← processFieldF fuel false v elemTy (zeroValue elemTy)
      let xs ← processElemsF fuel elemTy rest
      pure (x :: xs)

/-- The map-pair loop (field.go lines 369-392): split each pair on `':'`,
demand exactly two parts, coerce key and value into fresh zero values, and
insert into the accumulated map (`SetMapIndex` overwrites duplicates). -/
def processPairsF : Nat → Ty → Ty → List String → List (Value × Value) →
    Except String (List (Value × Value))
  | 0, _, _, _, _ => .error "recursion limit"
  | _ + 1, _, _, [], acc => .ok acc
  | fuel + 1, kTy, vTy, pair :: rest, acc =>
      match goSplit pair ':' with
      | [k0, v0] => do
          let k ← processFieldF fuel false k0 kTy (zeroValue kTy)
          let v ← processFieldF fuel false v0 vTy (zeroValue vTy)
          processPairsF fuel kTy vTy rest (mapSet acc k v)
      | _ => .error ("invalid map item: \"" ++ pair ++ "\"")
end

mutual
/-- Executable structural size of a type, used only to compute the fuel. -/
def tySize : Ty → Nat
  | .str => 1
  | .int _ => 1
  | .uint _ => 1
  | .bool => 1
  | .slice t => 1 + tySize t
  | .map k v => 1 + tySize k + tySize v
  | .ptr t => 1 + tySize t
  | .strct fs => 1 + tyFieldsSize fs
def tyFieldsSize : List (FieldMeta × Ty) → Nat
  | [] => 0
  | f :: rest => 1 + tySize f.2 + tyFieldsSize rest
end

/-- Fuel that dominates the recursion depth of `processField`: every
recursive layer strictly shrinks the type, every list step consumes one
element of a split of (a substring of) the value, and each step costs one
unit. -/
def pfFuel (ty : Ty) (value : String) : Nat :=
  (tySize ty + 2) * (value.toList.length + 2)

/-- `processField` (field.go lines 288-399). -/
def processField (settingDefault : Bool) (value : String) (ty : Ty) (field : Value) :
    Except String Value :=
  processFieldF (pfFuel ty value) settingDefault value ty field

/-! ## Field descriptors and access paths

A Go `Field` carries a live `reflect.Value` handle (`Field.Field`) aliasing
the destination struct.  The model replaces the handle by an access path from
the root value to the destination slot plus the slot's type. -/

inductive PathStep where
  | fieldIdx (i : Nat)
  | deref
deriving DecidableEq

/-- `Field` (field.go lines 30-35). -/
structure FieldD where
  name : String
  envKeys : List String
  path : List PathStep
  ty : Ty
  options : FieldOptions

/-- Read the value at a path (model of reading through the stored handle). -/
def getPath : Value → List PathStep → Option Value
  | v, [] => some v
  | .strct vs, .fieldIdx i :: q =>
      match vs[i]? with
      | some v => getPath v q
      | none => none
  | .ptr (some p), .deref :: q => getPath p q
  | _, _ => none

/-- Write the value at a path (model of writing through the stored handle).
On a dangling path the value is returned unchanged; the extraction stage only
ever produces paths that resolve. -/
def setPath : Value → List PathStep → Value → Value
  | _, [], x => x
  | .strct vs, .fieldIdx i :: q, x =>
      match vs[i]? with
      | some v => .strct (vs.set i (setPath v q x))
      | none => .strct vs
  | .ptr (some p), .deref :: q, x => .ptr (some (setPath p q x))
  | v, _, _ => v

/-- The error taxonomy of `Parse`; `message` below renders the exact Go
error strings. -/
inductive ParseErr where
  | invalidStruct
  | tagParse (fieldName : String) (cause : String)
  | noFields
  | requiredMissing (fieldName : String)
  | fieldError (fieldName : String) (typeName : String) (value : String) (cause : String)
deriving DecidableEq

/-- The error text each `ParseErr` renders to: `ErrInvalidStruct` (field.go
line 14), the tag-parse wrap (field.go line 82), the no-fields error (conf.go
line 20), the required-field error (conf.go line 53) and
`FieldError.Error()` (field.go line 26). -/
def ParseErr.message : ParseErr → String
  | .invalidStruct => "configuration must be a struct pointer"
  | .tagParse n c => "conf: error parsing tags for field " ++ n ++ ": " ++ c
  | .noFields => "no fields identified in config struct"
  | .requiredMissing n => "required field " ++ n ++ " is missing value"
  | .fieldError n t v c =>
      "conf: error assigning to field " ++ n ++ ": converting '" ++ v ++ "' to type " ++
        t ++ ". details: " ++ c

/-! ## Field extraction (field.go lines 45-141)

`extractLoop` is the per-struct field loop (lines 66-138); `extractField`
handles one field after its tag has parsed: the pointer-drilling loop (lines
89-101) and the struct-vs-leaf dispatch (lines 103-137).  Both thread the
(possibly mutated) values through, since drilling allocates zeroed pointees
for nil struct pointers, and return the descriptors with paths relative to
the current struct; `extractField` additionally counts the dereferences
needed from the field slot down to the drilled destination.  The recursion
into a nested struct goes directly into the field loop; Go reaches the same
loop through a recursive `extractFields(innerPre, f.Addr().Interface())`
call whose pointer/struct checks always pass there. -/

mutual
def extractLoop (pre : List String) (idx : Nat) :
    List (FieldMeta × Ty) → List Value → List Value × Except ParseErr (List FieldD)
  | [], vs => (vs, .ok [])
  | _ :: _, [] => ([], .ok [])
  | (meta, ty) :: rest, v :: vrest =>
      if !meta.canSet || meta.tag == "-" then
        let (vrest', res) := extractLoop pre (idx + 1) rest vrest
        (v :: vrest', res)
      else
        match parseTag meta.tag with
        | .error e => (v :: vrest, .error (.tagParse meta.name e))
        | .ok fieldOpts =>
            let fieldKey := pre ++ camelSplit meta.name
            match extractField pre meta fieldOpts fieldKey ty v with
            | (v', .error e) => (v' :: vrest, .error e)
            | (v', .ok (n, ds)) =>
                let ds := ds.map (fun d =>
                  { d with path := .fieldIdx idx :: (List.replicate n .deref ++ d.path) })
                let (vrest', res) := extractLoop pre (idx + 1) rest vrest
                (v' :: vrest', res.map (fun rds => ds ++ rds))

def extractField (pre : List String) (meta : FieldMeta) (fieldOpts : FieldOptions)
    (fieldKey : List String) :
    Ty → Value → Value × Except ParseErr (Nat × List FieldD)
  | .ptr inner, .ptr (some p) =>
      match extractField pre meta fieldOpts fieldKey inner p with
      | (p', res) => (.ptr (some p'), res.map (fun nds => (nds.1 + 1, nds.2)))
  | .ptr (.strct fs), _ =>
      match extractField pre meta fieldOpts fieldKey (.strct fs) (.strct (zeroFields fs)) with
      | (p', res) => (.ptr (some p'), res.map (fun nds => (nds.1 + 1, nds.2)))
  | .ptr inner, v =>
      (v, .ok (0, [{ name := meta.name,
                     envKeys := if fieldOpts.envName != "" then goSplit fieldOpts.envName '_'
                                else fieldKey,
                     path := [], ty := .ptr inner, options := fieldOpts }]))
  | .strct fs, v =>
      let innerPre := if meta.anonymous then pre else fieldKey
      match v with
      | .strct vs =>
          match extractLoop innerPre 0 fs vs with
          | (vs', res) => (.strct vs', res.map (fun ds => (0, ds)))
      | other => (other, .ok (0, []))
  | ty, v =>
      (v, .ok (0, [{ name := meta.name,
                     envKeys := if fieldOpts.envName != "" then goSplit fieldOpts.envName '_'
                                else fieldKey,
                     path := [], ty := ty, options := fieldOpts }]))
end

/-- `extractFields` (field.go lines 46-141): the pointer/struct kind checks of
lines 51-60 (a non-pointer target, a pointer to a non-struct, and a nil
pointer — whose `Elem()` is the invalid `reflect.Value` — all fail with
`ErrInvalidStruct`), then the field loop.  The root `s.Elem()` dereference
becomes a leading `deref` step on every descriptor path. -/
def extractFields (pfx : Option (List String)) (targetTy : Ty) (target : Value) :
    Value × Except ParseErr (List FieldD) :=
  let pre := pfx.getD []
  match targetTy, target with
  | .ptr (.strct fs), .ptr (some (.strct vs)) =>
      match extractLoop pre 0 fs vs with
      | (vs', res) =>
          (.ptr (some (.strct vs')),
           res.map (fun ds => ds.map (fun d => { d with path := .deref :: d.path })))
  | _, _ => (target, .error .invalidStruct)

/-! ## Environment snapshot (env.go) -/

/-- Insertion into the model of a Go `map[string]string` (overwrite in place,
else append). -/
def assocInsert : List (String × String) → String → String → List (String × String)
  | [], k, v => [(k, v)]
  | (k', v') :: rest, k, v =>
      if k' == k then (k, v) :: rest else (k', v') :: assocInsert rest k v

/-- Lookup in the model of a Go `map[string]string`. -/
def assocLookup : List (String × String) → String → Option String
  | [], _ => none
  | (k', v') :: rest, k => if k' == k then some v' else assocLookup rest k

/-- The `os.Environ()` loop of `newEnv` (env.go).  The environment is modeled
as `NAME, value` pairs; an `os.Environ()` entry is the string
`NAME ++ "=" ++ value` and always contains `'='`, so splitting it at the
first `'='` recovers exactly the pair.  An entry is kept when its full
`NAME=value` string has the namespace as a prefix or its name was explicitly
requested; its key is the uppercased name with the namespace stripped. -/
def newEnvLoop (ns : String) (includeNames : List String) :
    List (String × String) → List (String × String) → List (String × String)
  | [], m => m
  | (name, value) :: rest, m =>
      let givenEnvName := includeNames.contains name
      if !(goHasPre (name ++ "=" ++ value) ns) && !givenEnvName then
        newEnvLoop ns includeNames rest m
      else
        newEnvLoop ns includeNames rest (assocInsert m (goToUpper (goTrimPre name ns)) value)

/-- `newEnv` (env.go): build the uppercase `NAMESPACE_` marker (dropping the
leading underscore when the namespace is empty), then filter the process
environment. -/
def newEnv (pre : String) (includeNames : List String) (environ : List (String × String)) :
    List (String × String) :=
  let ns0 := goToUpper pre ++ "_"
  let ns := if pre == "" then String.mk (ns0.toList.drop 1) else ns0
  newEnvLoop ns includeNames environ []

/-- `env.Value` (env.go): look up the uppercased, underscore-joined key of a
field in the snapshot. -/
def envValue (m : List (String × String)) (fld : FieldD) : Option String :=
  assocLookup m (goToUpper (goJoin fld.envKeys "_"))

/-! ## The resolution loop and `Parse` (conf.go) -/

/-- The per-field loop of `Parse` (conf.go lines 34-69): apply the declared
default in default mode, look the field up in the snapshot, fail when a
required field has no entry, leave the field alone when absent, otherwise
overwrite with the environment value. -/
def processLoop (env : List (String × String)) :
    List FieldD → Value → Value × Option ParseErr
  | [], v => (v, none)
  | fld :: rest, v =>
      match (if fld.options.defaultVal != "" then
               match processField true fld.options.defaultVal fld.ty
                   ((getPath v fld.path).getD (zeroValue fld.ty)) with
               | .error e =>
                   .error (ParseErr.fieldError fld.name (tyString fld.ty)
                     fld.options.defaultVal e)
               | .ok w => .ok (setPath v fld.path w)
             else .ok v : Except ParseErr Value) with
      | .error e => (v, some e)
      | .ok v1 =>
          match envValue env fld with
          | none =>
              if fld.options.required then (v1, some (.requiredMissing fld.name))
              else processLoop env rest v1
          | some value =>
              match processField false value fld.ty
                  ((getPath v1 fld.path).getD (zeroValue fld.ty)) with
              | .error e =>
                  (v1, some (.fieldError fld.name (tyString fld.ty) value e))
              | .ok w => processLoop env rest (setPath v1 fld.path w)

/-- `Parse` (conf.go lines 11-72): extract the descriptors (with a nil
name-path, so computed keys carry no namespace — the namespace is instead
stripped from the snapshot keys by `newEnv`), fail when none were found,
collect the explicitly named variables, snapshot the environment, and run the
resolution loop. -/
def Parse (pre : String) (targetTy : Ty) (cfg : Value)
    (environ : List (String × String)) : Value × Option ParseErr :=
  match extractFields none targetTy cfg with
  | (cfg', .error e) => (cfg', some e)
  | (cfg', .ok fields) =>
      if fields.length == 0 then (cfg', some .noFields)
      else
        let specifiedEnvNames := fields.filterMap
          (fun f => if f.options.envName != "" then some f.options.envName else none)
        let env := newEnv pre specifiedEnvNames environ
        processLoop env fields cfg'

/-! ## Support definitions for the verified claims -/

/-- The target shapes `extractFields` accepts: a non-nil pointer to a struct
(field.go lines 51-60 reject everything else). -/
def validTarget : Ty → Value → Bool
  | .ptr (.strct _), .ptr (some (.strct _)) => true
  | _, _ => false

/-- Types whose zero-valued field becomes a leaf descriptor: not a struct
(which is recursed into) and not a pointer to a struct (which the drilling
loop allocates and descends into when nil). -/
def isLeafTy : Ty → Bool
  | .strct _ => false
  | .ptr inner =>
      match inner with
      | .strct _ => false
      | _ => true
  | _ => true

/-- A one-field struct declaring an explicit `env:` override, as in the
package README's AWS example. -/
def envOverrideTy : Ty :=
  .ptr (.strct [({name := "Key", tag := "env:AWS_ACCESS_KEY_ID", canSet := true,
                  anonymous := false}, .str)])

/-- The struct of the package's own `TestParse_Required` tests: a required
int alongside two untagged fields. -/
def requiredIntTy : Ty :=
  .ptr (.strct [
    ({name := "TestInt", tag := "required", canSet := true, anonymous := false}, .int 64),
    ({name := "TestString", tag := "", canSet := true, anonymous := false}, .str),
    ({name := "TestBool", tag := "", canSet := true, anonymous := false}, .bool)])

/-- A struct whose only field carries the malformed directive `default:`. -/
def emptyDefaultTy : Ty :=
  .ptr (.strct [({name := "A", tag := "default:", canSet := true, anonymous := false}, .str)])

/-- A struct whose only field declares both `required` and a `default`. -/
def bothRequiredDefaultTy : Ty :=
  .ptr (.strct [({name := "A", tag := "required,default:1", canSet := true,
                  anonymous := false}, .int 64)])

/-- A struct whose fields are all unexported (unwritable). -/
def unexportedOnlyTy : Ty :=
  .ptr (.strct [({name := "testInt", tag := "", canSet := false, anonymous := false}, .int 64)])

/-- A struct with a named nested struct field and an embedded (anonymous)
struct field, for the path-prefix claims. -/
def nestedTy : Ty :=
  .ptr (.strct [
    ({name := "IP", tag := "", canSet := true, anonymous := false},
      .strct [({name := "Name", tag := "", canSet := true, anonymous := false}, .str)]),
    ({name := "Embed", tag := "", canSet := true, anonymous := true},
      .strct [({name := "Duration", tag := "", canSet := true, anonymous := false}, .str)])])

/-! ### Claim C1 support: defaults-only structs and their expected value -/

/-- Did a coercion succeed? -/
def isOkE : Except String Value → Bool
  | .ok _ => true
  | .error _ => false

mutual
/-- The hypothesis family of the defaults-only claim, per field: the field is
skipped, or its tag parses to options with no `required` and no `env:`
override, a nested struct (also behind one pointer) satisfies the same
condition recursively, and any declared default coerces successfully into
the field's zero value. -/
def c1FieldOk : FieldMeta → Ty → Bool
  | meta, ty =>
    if !meta.canSet || meta.tag == "-" then true
    else
      match parseTag meta.tag with
      | .error _ => false
      | .ok opts =>
          !opts.required && opts.envName == "" &&
          (match ty with
           | .strct fs => c1FieldsOk fs
           | .ptr inner =>
               (match inner with
                | .strct fs => c1FieldsOk fs
                | t => opts.defaultVal == "" ||
                    isOkE (processField true opts.defaultVal (.ptr t) (zeroValue (.ptr t))))
           | t => opts.defaultVal == "" || isOkE (processField true opts.defaultVal t (zeroValue t)))
def c1FieldsOk : List (FieldMeta × Ty) → Bool
  | [] => true
  | (meta, ty) :: rest => c1FieldOk meta ty && c1FieldsOk rest
end

mutual
/-- The values a defaults-only struct holds after extraction and before the
resolution loop: the drilling loop of `extractField` allocates a zeroed
pointee for every non-skipped nil pointer-to-struct field (recursively),
and every other field keeps its zero value. -/
def allocField : FieldMeta → Ty → Value
  | meta, ty =>
    if !meta.canSet || meta.tag == "-" then zeroValue ty
    else
      match ty with
      | .strct fs => .strct (allocFields fs)
      | .ptr inner =>
          (match inner with
           | .strct fs => .ptr (some (.strct (allocFields fs)))
           | _ => .ptr none)
      | t => zeroValue t
def allocFields : List (FieldMeta × Ty) → List Value
  | [] => []
  | (meta, ty) :: rest => allocField meta ty :: allocFields rest
end

mutual
/-- The expected struct of the (amended) defaults-only claim: a defaulted
leaf holds its declared default coerced into the field's type, an untagged
or skipped or unwritable leaf holds its zero value, nested structs are
defaulted recursively, and a non-skipped pointer-to-struct field — nil in
the zero struct — is allocated by extraction and points at the recursively
defaulted struct (a defaulted pointer-to-leaf field points at its coerced
default, through `processField`'s one-level unwrap in the catch-all). -/
def specDefaultedField : FieldMeta → Ty → Value
  | meta, ty =>
    if !meta.canSet || meta.tag == "-" then zeroValue ty
    else
      match ty with
      | .strct fs => .strct (specDefaulted fs)
      | .ptr inner =>
          (match inner with
           | .strct fs => .ptr (some (.strct (specDefaulted fs)))
           | t =>
               match parseTag meta.tag with
               | .ok opts =>
                   if opts.defaultVal != "" then
                     match processField true opts.defaultVal (.ptr t)
                         (zeroValue (.ptr t)) with
                     | .ok w => w
                     | .error _ => zeroValue (Ty.ptr t)
                   else zeroValue (Ty.ptr t)
               | .error _ => zeroValue (Ty.ptr t))
      | t =>
          match parseTag meta.tag with
          | .ok opts =>
              if opts.defaultVal != "" then
                match processField true opts.defaultVal t (zeroValue t) with
                | .ok w => w
                | .error _ => zeroValue t
              else zeroValue t
          | .error _ => zeroValue t
def specDefaulted : List (FieldMeta × Ty) → List Value
  | [] => []
  | (meta, ty) :: rest => specDefaultedField meta ty :: specDefaulted rest
end

/-- The environment-side hypothesis of the defaults-only claim: extraction of
the zero-valued struct succeeds with at least one descriptor and the
snapshot holds no entry matching any descriptor's computed key. -/
def c1EnvAbsent (pre : String) (environ : List (String × String))
    (fs : List (FieldMeta × Ty)) : Prop :=
  match (extractFields none (.ptr (.strct fs)) (.ptr (some (.strct (zeroFields fs))))).2 with
  | .ok ds => ds.length ≠ 0 ∧ ∀ d ∈ ds, envValue (newEnv pre [] environ) d = none
  | .error _ => False

/-- One iteration of the resolution loop (the body of `Parse`'s `for` over
the fields, conf.go lines 34-69), factored out of `processLoop` for the
compositional lemmas: returns the updated value and an error when the
iteration aborts the loop. -/
def processStep (snap : List (String × String)) (fld : FieldD) (v : Value) :
    Value × Option ParseErr :=
  match (if fld.options.defaultVal != "" then
           match processField true fld.options.defaultVal fld.ty
               ((getPath v fld.path).getD (zeroValue fld.ty)) with
           | .error e =>
               .error (ParseErr.fieldError fld.name (tyString fld.ty) fld.options.defaultVal e)
           | .ok w => .ok (setPath v fld.path w)
         else .ok v : Except ParseErr Value) with
  | .error e => (v, some e)
  | .ok v1 =>
      match envValue snap fld with
      | none =>
          if fld.options.required then (v1, some (.requiredMissing fld.name)) else (v1, none)
      | some value =>
          match processField false value fld.ty
              ((getPath v1 fld.path).getD (zeroValue fld.ty)) with
          | .error e => (v1, some (.fieldError fld.name (tyString fld.ty) value e))
          | .ok w => (setPath v1 fld.path w, none)

/-- A concrete defaults-only configuration exercising the C1 claim: two
defaulted leaves, an untagged leaf, a named nested struct with a defaulted
leaf, and an anonymous embedded struct with an untagged leaf. -/
def c1WitnessFields : List (FieldMeta × Ty) :=
  [({ name := "Host", tag := "default:localhost", canSet := true, anonymous := false }, .str),
   ({ name := "Port", tag := "default:8080", canSet := true, anonymous := false }, .int 64),
   ({ name := "Debug", tag := "", canSet := true, anonymous := false }, .bool),
   ({ name := "Inner", tag := "", canSet := true, anonymous := false },
     .strct [({ name := "Rate", tag := "default:2", canSet := true, anonymous := false },
              .uint 32)]),
   ({ name := "Embedded", tag := "", canSet := true, anonymous := true },
     .strct [({ name := "Flag", tag := "default:true", canSet := true, anonymous := false },
              .bool)]),
   ({ name := "hidden", tag := "", canSet := false, anonymous := false }, .str),
   ({ name := "Sub", tag := "", canSet := true, anonymous := false },
     .ptr (.strct [({ name := "Rate", tag := "default:3", canSet := true,
                      anonymous := false }, .int 32)])),
   ({ name := "Opt", tag := "default:7", canSet := true, anonymous := false },
     .ptr (.uint 16)),
   ({ name := "Nil", tag := "", canSet := true, anonymous := false }, .ptr (.str))]

/-- A defaults-only struct whose single field is an untagged nil pointer to
a struct: the counterexample configuration for the original defaults-only
claim, where this field should have retained its zero value `nil`. -/
def c1PtrFields : List (FieldMeta × Ty) :=
  [({ name := "Sub", tag := "", canSet := true, anonymous := false },
     .ptr (.strct [({ name := "N", tag := "", canSet := true, anonymous := false },
                    .int 64)]))]

/-- A one-field struct declaring an explicit `env:<NAME>` override,
parametrized by the override name, for the C3 claim. -/
def c3Fields (NAME : String) : List (FieldMeta × Ty) :=
  [({name := "Key", tag := "env:" ++ NAME, canSet := true, anonymous := false}, .str)]

/-- The descriptor `extractFields` produces for `c3Fields NAME`. -/
def c3Desc (NAME : String) : FieldD :=
  { name := "Key", envKeys := goSplit NAME '_', path := [.deref, .fieldIdx 0],
    ty := .str, options := {envName := NAME} }

end Conf


namespace Conf

/-! ## Basic unfolding lemmas for the fueled coercion stage -/

theorem pfFuel_ge_four (ty : Ty) (value : String) : 4 ≤ pfFuel ty value := by
  have h : 2 * 2 ≤ (tySize ty + 2) * (value.toList.length + 2) :=
    Nat.mul_le_mul (by omega) (by omega)
  simpa [pfFuel] using h

theorem processField_fuel_succ (sd : Bool) (v : String) (ty : Ty) (f : Value) :
    processField sd v ty f = processFieldF (((pfFuel ty v - 2) + 1) + 1) sd v ty f := by
  have h : pfFuel ty v = (pfFuel ty v - 2) + 2 := by
    have := pfFuel_ge_four ty v
    omega
  rw [processField, ← h]

theorem except_map_ok {α β ε : Type} (g : α → β) (x : Except ε α) (w : β)
    (h : x.map g = .ok w) : ∃ a, x = .ok a ∧ w = g a := by
  cases x with
  | error e => simp [Except.map] at h
  | ok a =>
      refine ⟨a, rfl, ?_⟩
      simpa [Except.map] using h.symm

theorem processFieldF_succ_ptr (fuel : Nat) (sd : Bool) (v : String) (inner : Ty) (f : Value) :
    processFieldF (fuel + 1) sd v (.ptr inner) f =
      (processFieldAuxF fuel sd v inner
        (match f with | .ptr (some p) => p | _ => zeroValue inner)).map
        (fun p => .ptr (some p)) := by
  simp [processFieldF]

theorem processFieldAuxF_skip (fuel : Nat) (sd : Bool) (v : String) (ty : Ty) (f : Value)
    (h : (sd && !(isZero f)) = true) : processFieldAuxF (fuel + 1) sd v ty f = .ok f := by
  simp [processFieldAuxF, h]

/-- After the skip check falls through, the dispatch reads neither the mode
nor the current destination value: the Go code rebuilds every result from the
raw string. -/
theorem processFieldAuxF_const (fuel : Nat) (sd sd' : Bool) (v : String) (ty : Ty)
    (a b : Value) (ha : (sd && !(isZero a)) = false) (hb : (sd' && !(isZero b)) = false) :
    processFieldAuxF (fuel + 1) sd v ty a = processFieldAuxF (fuel + 1) sd' v ty b := by
  simp only [processFieldAuxF, ha, hb, Bool.false_eq_true, if_false]

end Conf

namespace Conf

/-! ## Claim C6: slice and map coercion -/

/-- **C6**: coercing `"a;b;c"` into a string-slice destination yields the
three-element sequence `["a","b","c"]` assigned wholesale (any prior value is
replaced); coercing into a string-map destination: `"k1:v1;k2:v2"` yields the
freshly built two-entry mapping, a blank raw string yields the empty mapping,
an entry whose colon count is not exactly one (`"a:b:c"`, `"ab"`) is an
`invalid map item` error, and duplicate keys resolve to the last-written
value. -/
theorem claim_C6_slice_map_coercion (v0 : Value) :
    processField false "a;b;c" (.slice .str) v0 = .ok (.slice [.str "a", .str "b", .str "c"]) ∧
    processField false "k1:v1;k2:v2" (.map .str .str) v0 =
      .ok (.map [(.str "k1", .str "v1"), (.str "k2", .str "v2")]) ∧
    processField false "" (.map .str .str) v0 = .ok (.map []) ∧
    processField false " " (.map .str .str) v0 = .ok (.map []) ∧
    processField false "a:b:c" (.map .str .str) v0 = .error "invalid map item: \"a:b:c\"" ∧
    processField false "ab" (.map .str .str) v0 = .error "invalid map item: \"ab\"" ∧
    processField false "k:1;k:2" (.map .str .str) v0 = .ok (.map [(.str "k", .str "2")]) :=
  ⟨rfl, rfl, rfl, rfl, rfl, rfl, rfl⟩

/-! ## Claim C10: nil pointers are allocated before coercion recurses -/

/-- **C10**: for a pointer-typed destination, a nil pointer is treated exactly
as a freshly allocated zero pointee, in both default mode and overwrite mode;
and every successful coercion of a pointer-typed destination produces a
non-nil pointer — the coercion stage never writes through a nil pointer. -/
theorem claim_C10_nil_pointer_alloc :
    (∀ (sd : Bool) (value : String) (inner : Ty),
      processField sd value (.ptr inner) (.ptr none) =
        processField sd value (.ptr inner) (.ptr (some (zeroValue inner)))) ∧
    (∀ (sd : Bool) (value : String) (inner : Ty) (f w : Value),
      processField sd value (.ptr inner) f = .ok w → ∃ p, w = .ptr (some p)) := by
  constructor
  · intro sd value inner
    rw [processField_fuel_succ, processField_fuel_succ]
    rw [processFieldF_succ_ptr, processFieldF_succ_ptr]
  · intro sd value inner f w h
    rw [processField_fuel_succ, processFieldF_succ_ptr] at h
    obtain ⟨p, -, hw⟩ := except_map_ok _ _ _ h
    exact ⟨p, hw⟩

/-- Witness for C10: a nil `*int64` pointer behaves as a pointer to `0` and a
successful run yields a non-nil pointer. -/
theorem claim_C10_witness :
    processField true "5" (.ptr (.int 64)) (.ptr none) =
      processField true "5" (.ptr (.int 64)) (.ptr (some (zeroValue (.int 64)))) ∧
    (∃ p, (Value.ptr (some (.int 5)) : Value) = .ptr (some p)) :=
  ⟨claim_C10_nil_pointer_alloc.1 true "5" (.int 64),
   claim_C10_nil_pointer_alloc.2 true "5" (.int 64) (.ptr none) (.ptr (some (.int 5))) rfl⟩

end Conf

namespace Conf

/-! ## Claim C9: default-mode coercion and idempotent defaulting -/

theorem processFieldF_succ_nonptr (fuel : Nat) (sd : Bool) (v : String) (ty : Ty) (f : Value)
    (ht : ∀ inner, ty ≠ Ty.ptr inner) :
    processFieldF (fuel + 1) sd v ty f = processFieldAuxF fuel sd v ty f := by
  cases ty <;> first | rfl | exact ((ht _ rfl).elim)

/-- **C9 counterexample**: a non-nil `*int64` pointing at `0` is a destination
holding a non-zero value (`IsZero` of a non-nil pointer is false), yet
default-mode coercion is not a no-op: `processField` dereferences the pointer
before its zero check and overwrites the zero pointee. -/
theorem claim_C9_counterexample :
    isZero (Value.ptr (some (.int 0))) = false ∧
    processField true "5" (.ptr (.int 64)) (.ptr (some (.int 0))) =
      .ok (.ptr (some (.int 5))) ∧
    Value.ptr (some (.int 5)) ≠ Value.ptr (some (.int 0)) := by
  refine ⟨rfl, rfl, ?_⟩
  simp only [ne_eq, Value.ptr.injEq, Option.some.injEq, Value.int.injEq]
  decide

theorem c9_idem_nonptr (value : String) (ty : Ty) (v w : Value)
    (ht : ∀ inner, ty ≠ Ty.ptr inner)
    (h : processField true value ty v = .ok w) :
    processField true value ty w = .ok w := by
  rw [processField_fuel_succ, processFieldF_succ_nonptr _ _ _ _ _ ht] at h ⊢
  by_cases hz : isZero v
  · by_cases hzw : isZero w
    · rw [processFieldAuxF_const _ true true value ty w v (by simp [hzw]) (by simp [hz])]
      exact h
    · rw [processFieldAuxF_skip _ _ _ _ _ (by simp [hzw])]
  · rw [processFieldAuxF_skip _ _ _ _ _ (by simp [hz])] at h
    cases h
    rw [processFieldAuxF_skip _ _ _ _ _ (by simp [hz])]

theorem c9_idem_ptr (value : String) (inner : Ty) (v w : Value)
    (h : processField true value (.ptr inner) v = .ok w) :
    processField true value (.ptr inner) w = .ok w := by
  rw [processField_fuel_succ, processFieldF_succ_ptr] at h ⊢
  obtain ⟨pw, hx, hw⟩ := except_map_ok _ _ _ h
  subst hw
  rw [show (match (Value.ptr (some pw) : Value) with
            | Value.ptr (some p) => p | _ => zeroValue inner) = pw from rfl]
  generalize hpv : (match v with
    | Value.ptr (some p) => p | _ => zeroValue inner) = pv at hx
  by_cases hz : isZero pw
  · by_cases hzv : isZero pv
    · rw [processFieldAuxF_const _ true true value inner pw pv (by simp [hz]) (by simp [hzv])]
      rw [hx]
      rfl
    · rw [processFieldAuxF_skip _ _ _ _ _ (by simp [hzv])] at hx
      cases hx
      simp [hz] at hzv
  · rw [processFieldAuxF_skip _ _ _ _ _ (by simp [hz])]
    rfl

/-- **C9 amended**: the default-mode skip applies to the value after the
one-level pointer dereference: a non-pointer destination holding a non-zero
value, or a pointer destination whose non-nil pointee is non-zero, is left
unchanged with success; and applying the same default twice equals applying
it once. -/
theorem claim_C9_amended_default_mode :
    (∀ (value : String) (ty : Ty) (f : Value), (∀ inner, ty ≠ Ty.ptr inner) →
      isZero f = false → processField true value ty f = .ok f) ∧
    (∀ (value : String) (inner : Ty) (p : Value), isZero p = false →
      processField true value (.ptr inner) (.ptr (some p)) = .ok (.ptr (some p))) ∧
    (∀ (value : String) (ty : Ty) (v w : Value),
      processField true value ty v = .ok w → processField true value ty w = .ok w) := by
  refine ⟨?_, ?_, ?_⟩
  · intro value ty f ht hf
    rw [processField_fuel_succ, processFieldF_succ_nonptr _ _ _ _ _ ht]
    exact processFieldAuxF_skip _ _ _ _ _ (by simp [hf])
  · intro value inner p hp
    rw [processField_fuel_succ, processFieldF_succ_ptr]
    rw [processFieldAuxF_skip _ _ _ _ _ (by simp [hp])]
    rfl
  · intro value ty v w h
    cases ty with
    | ptr inner => exact c9_idem_ptr value inner v w h
    | str => exact c9_idem_nonptr value _ v w (fun _ h => Ty.noConfusion h) h
    | int bits => exact c9_idem_nonptr value _ v w (fun _ h => Ty.noConfusion h) h
    | uint bits => exact c9_idem_nonptr value _ v w (fun _ h => Ty.noConfusion h) h
    | bool => exact c9_idem_nonptr value _ v w (fun _ h => Ty.noConfusion h) h
    | slice t => exact c9_idem_nonptr value _ v w (fun _ h => Ty.noConfusion h) h
    | map k vt => exact c9_idem_nonptr value _ v w (fun _ h => Ty.noConfusion h) h
    | strct fs => exact c9_idem_nonptr value _ v w (fun _ h => Ty.noConfusion h) h

/-- Witness for the amended C9 at concrete inputs. -/
theorem claim_C9_amended_witness :
    processField true "5" (.int 64) (.int 7) = .ok (.int 7) ∧
    processField true "5" (.ptr (.int 64)) (.ptr (some (.int 7))) = .ok (.ptr (some (.int 7))) ∧
    processField true "5" (.int 64) (.int 5) = .ok (.int 5) :=
  ⟨claim_C9_amended_default_mode.1 "5" (.int 64) (.int 7) (fun _ h => Ty.noConfusion h) rfl,
   claim_C9_amended_default_mode.2.1 "5" (.int 64) (.int 7) rfl,
   claim_C9_amended_default_mode.2.2 "5" (.int 64) (.int 0) (.int 5) rfl⟩

end Conf

namespace Conf

/-! ## Claim C7: tag-parsing failures abort the whole call -/

/-- **C7**: a `key:` clause with an empty value after the colon is a tag-parse
error, as is declaring both `required` and a `default`; in either case
extraction aborts and `Parse` returns the error with the destination exactly
as extraction left it, before any default or environment value is assigned
(for the concrete one-field structs below, entirely unchanged, for every
namespace and every environment). -/
theorem claim_C7_tag_parse_errors :
    parseTag "default:" = .error "tag \"default\" missing value" ∧
    parseTag "required,default:1" = .error "cannot set both `required` and `default`" ∧
    (∀ (pre : String) (targetTy : Ty) (cfg : Value) (environ : List (String × String))
        (e : ParseErr),
      (extractFields none targetTy cfg).2 = .error e →
      Parse pre targetTy cfg environ = ((extractFields none targetTy cfg).1, some e)) ∧
    (∀ (pre : String) (environ : List (String × String)),
      Parse pre emptyDefaultTy (.ptr (some (.strct [.str ""]))) environ =
        (.ptr (some (.strct [.str ""])), some (.tagParse "A" "tag \"default\" missing value"))) ∧
    (∀ (pre : String) (environ : List (String × String)),
      Parse pre bothRequiredDefaultTy (.ptr (some (.strct [.int 0]))) environ =
        (.ptr (some (.strct [.int 0])),
         some (.tagParse "A" "cannot set both `required` and `default`"))) := by
  refine ⟨rfl, rfl, ?_, fun pre environ => rfl, fun pre environ => rfl⟩
  intro pre targetTy cfg environ e h
  rcases hE : extractFields none targetTy cfg with ⟨v', r⟩
  rw [hE] at h
  simp only at h
  subst h
  simp [Parse, hE]

/-- Witness for the hypothesis-bearing part of C7: the abort lemma applied to
the concrete struct with the malformed `default:` directive. -/
theorem claim_C7_witness :
    Parse "test" emptyDefaultTy (.ptr (some (.strct [.str ""]))) [] =
      ((extractFields none emptyDefaultTy (.ptr (some (.strct [.str ""])))).1,
       some (.tagParse "A" "tag \"default\" missing value")) :=
  claim_C7_tag_parse_errors.2.2.1 "test" emptyDefaultTy (.ptr (some (.strct [.str ""]))) []
    (.tagParse "A" "tag \"default\" missing value") rfl

/-! ## Claim C8: invalid destinations and empty field lists -/

theorem extractFields_invalid (pfx : Option (List String)) (ty : Ty) (v : Value)
    (h : validTarget ty v = false) :
    extractFields pfx ty v = (v, .error .invalidStruct) := by
  unfold extractFields
  split
  · simp [validTarget] at h
  · rfl

/-- **C8**: a destination that is not a non-nil pointer to a struct makes
`Parse` fail with the invalid-structure error and leaves the destination
unchanged; and a destination from which zero descriptors are extracted makes
`Parse` fail with the no-fields error, the destination again exactly as
extraction left it. -/
theorem claim_C8_invalid_structure :
    (∀ (pre : String) (ty : Ty) (v : Value) (environ : List (String × String)),
      validTarget ty v = false → Parse pre ty v environ = (v, some .invalidStruct)) ∧
    (∀ (pre : String) (ty : Ty) (v v' : Value) (environ : List (String × String)),
      extractFields none ty v = (v', .ok []) → Parse pre ty v environ = (v', some .noFields)) := by
  constructor
  · intro pre ty v environ h
    simp [Parse, extractFields_invalid none ty v h]
  · intro pre ty v v' environ h
    simp [Parse, h]

/-- Witness for C8: a non-pointer destination, a pointer to a non-struct, a
nil struct pointer, and a struct with only unexported fields. -/
theorem claim_C8_witness :
    Parse "test" (.int 64) (.int 0) [] = (.int 0, some .invalidStruct) ∧
    Parse "test" (.ptr .str) (.ptr (some (.str ""))) [] =
      (.ptr (some (.str "")), some .invalidStruct) ∧
    Parse "test" unexportedOnlyTy (.ptr none) [] = (.ptr none, some .invalidStruct) ∧
    Parse "test" unexportedOnlyTy (.ptr (some (.strct [.int 0]))) [] =
      (.ptr (some (.strct [.int 0])), some .noFields) :=
  ⟨claim_C8_invalid_structure.1 "test" (.int 64) (.int 0) [] rfl,
   claim_C8_invalid_structure.1 "test" (.ptr .str) (.ptr (some (.str ""))) [] rfl,
   claim_C8_invalid_structure.1 "test" unexportedOnlyTy (.ptr none) [] rfl,
   claim_C8_invalid_structure.2 "test" unexportedOnlyTy (.ptr (some (.strct [.int 0])))
     (.ptr (some (.strct [.int 0]))) [] rfl⟩

end Conf

namespace Conf

/-! ## Claim C3: explicit `env:` overrides and the namespace prefix -/

/-- **C3 counterexample**: with namespace `"TEST"` and a field declaring
`env:AWS_ACCESS_KEY_ID`, an environment holding only the prefixed name
`TEST_AWS_ACCESS_KEY_ID` does NOT leave the field unset: `newEnv` strips the
namespace from every matching entry, the stripped key coincides with the
override's lookup key, and the field is bound to the prefixed entry's value. -/
theorem claim_C3_counterexample :
    Parse "TEST" envOverrideTy (.ptr (some (.strct [.str ""])))
        [("TEST_AWS_ACCESS_KEY_ID", "secret")] =
      (.ptr (some (.strct [.str "secret"])), none) ∧
    Value.str "secret" ≠ Value.str "" := by
  refine ⟨rfl, ?_⟩
  simp

/-- `splitOnChar` always yields at least one group. -/
theorem splitOnChar_ne_nil (sep : Char) (l : List Char) : splitOnChar sep l ≠ [] := by
  cases l with
  | nil => simp [splitOnChar]
  | cons c rest =>
      simp only [splitOnChar]
      split
      · simp
      · split <;> simp

/-- Joining the groups of a split on the same separator restores the input. -/
theorem joinCharLists_splitOnChar (sep : Char) (l : List Char) :
    joinCharLists sep (splitOnChar sep l) = l := by
  induction l with
  | nil => rfl
  | cons c rest ih =>
      rcases hr : splitOnChar sep rest with _ | ⟨g, gs⟩
      · exact absurd hr (splitOnChar_ne_nil sep rest)
      · rw [hr] at ih
        simp only [splitOnChar, hr]
        by_cases hc : (c == sep) = true
        · have hceq : c = sep := beq_iff_eq.mp hc
          simp only [hc, if_true]
          rw [joinCharLists, ih]
          simp [hceq]
        · simp only [hc, Bool.false_eq_true, if_false]
          cases gs with
          | nil =>
              rw [joinCharLists]
              rw [joinCharLists] at ih
              rw [ih]
          | cons g2 gs2 =>
              rw [joinCharLists]
              rw [joinCharLists] at ih
              rw [← ih]
              rfl

theorem goJoin_map_mk (sep : Char) (gs : List (List Char)) :
    goJoin (gs.map (fun g => String.mk g)) (String.mk [sep])
      = String.mk (joinCharLists sep gs) := by
  match gs with
  | [] => rfl
  | [x] => rfl
  | x :: y :: rest =>
      have ih := goJoin_map_mk sep (y :: rest)
      show String.mk x ++ String.mk [sep]
          ++ goJoin ((y :: rest).map (fun g => String.mk g)) (String.mk [sep])
        = String.mk (x ++ sep :: joinCharLists sep (y :: rest))
      rw [ih]
      show String.mk ((x ++ [sep]) ++ joinCharLists sep (y :: rest)) = _
      rw [List.append_assoc]
      rfl
termination_by gs.length
decreasing_by simp

/-- Splitting on `'_'` and rejoining with `"_"` (the computation `env.Value`
applies to a descriptor's key segments) is the identity. -/
theorem goJoin_goSplit (s : String) : goJoin (goSplit s '_') "_" = s := by
  rw [show ("_" : String) = String.mk ['_'] from rfl, goSplit, goJoin_map_mk,
    joinCharLists_splitOnChar]
  rfl

theorem listIsPre_self_append (a b : List Char) : listIsPre a (a ++ b) = true := by
  induction a with
  | nil => rfl
  | cons c as_ ih => simp [listIsPre, ih]

theorem listIsPre_length_le (p s : List Char) (h : listIsPre p s = true) :
    p.length ≤ s.length := by
  induction p generalizing s with
  | nil => simp
  | cons c ps ih =>
      cases s with
      | nil => simp [listIsPre] at h
      | cons d ss =>
          rw [listIsPre, Bool.and_eq_true] at h
          have := ih ss h.2
          simp only [List.length_cons]
          omega

theorem goHasPre_self_append (ns x : String) : goHasPre (ns ++ x) ns = true := by
  show listIsPre ns.toList (ns.toList ++ x.toList) = true
  exact listIsPre_self_append _ _

theorem goTrimPre_self_append (ns x : String) : goTrimPre (ns ++ x) ns = x := by
  rw [goTrimPre, if_pos (goHasPre_self_append ns x)]
  show String.mk ((ns.toList ++ x.toList).drop ns.toList.length) = x
  rw [List.drop_left]
  rfl

theorem goToUpper_toList_length (s : String) :
    (goToUpper s).toList.length = s.toList.length := by
  simp [goToUpper]

theorem str_beq_false_of_length (s t : String)
    (h : s.toList.length ≠ t.toList.length) : (s == t) = false := by
  simp only [beq_eq_false_iff_ne, ne_eq]
  intro hc
  exact h (by rw [hc])

/-- Overwrite-mode coercion into a string destination stores the raw value
verbatim (field.go line 311), for every prior value. -/
theorem processField_false_str (v : String) (f : Value) :
    processField false v .str f = .ok (.str v) := by
  rw [processField_fuel_succ, processFieldF_succ_nonptr _ _ _ _ _ (fun _ h => Ty.noConfusion h)]
  simp [processFieldAuxF]

/-- Extraction of the one-field `env:<NAME>` override struct. -/
theorem c3_extract (NAME : String)
    (htag : parseTag ("env:" ++ NAME) = .ok { envName := NAME })
    (hne : NAME ≠ "") :
    extractFields none (.ptr (.strct (c3Fields NAME))) (.ptr (some (.strct [.str ""]))) =
      (.ptr (some (.strct [.str ""])), .ok [c3Desc NAME]) := by
  have htagne : (("env:" ++ NAME) == "-") = false := by
    apply str_beq_false_of_length
    show ("env:".toList ++ NAME.toList).length ≠ ("-" : String).toList.length
    simp
  have hne' : (NAME != "") = true := by
    simp only [bne, Bool.not_eq_true', beq_eq_false_iff_ne, ne_eq]
    exact hne
  have hEFd : extractField []
      {name := "Key", tag := "env:" ++ NAME, canSet := true, anonymous := false}
      {envName := NAME} (camelSplit "Key") .str (.str "") =
      (.str "",
       .ok (0, [{ name := "Key", envKeys := goSplit NAME '_', path := [],
                  ty := .str, options := {envName := NAME} }])) := by
    simp [extractField, hne']
  simp [extractFields, extractLoop, c3Fields, c3Desc, htagne, htag, hEFd, List.replicate,
    Except.map]

/-- The resolution loop on the override descriptor: a snapshot hit binds the
field wholesale, a miss leaves it untouched with no error. -/
theorem c3_run (NAME v0 : String) (snap : List (String × String)) :
    (assocLookup snap (goToUpper (goJoin (goSplit NAME '_') "_")) = some v0 →
      processLoop snap [c3Desc NAME] (.ptr (some (.strct [.str ""]))) =
        (.ptr (some (.strct [.str v0])), none))
    ∧ (assocLookup snap (goToUpper (goJoin (goSplit NAME '_') "_")) = none →
      processLoop snap [c3Desc NAME] (.ptr (some (.strct [.str ""]))) =
        (.ptr (some (.strct [.str ""])), none)) := by
  constructor
  · intro hv
    simp [processLoop, envValue, c3Desc, hv, getPath, setPath, processField_false_str]
  · intro hv
    simp [processLoop, envValue, c3Desc, hv]

/-- **C3 amended**: an explicit `env:<NAME>` override is looked up in the
snapshot under the key `<NAME>` itself, but which environment entries land
under that key depends on `newEnv`'s prefix stripping: the prefixed entry
`<NAMESPACE>_<NAME>` is always honored (stripping leaves exactly `<NAME>`),
while the unprefixed entry named exactly `<NAME>` is honored precisely when
`<NAME>` does not itself begin with `<NAMESPACE>_` — when it does, stripping
also shortens the unprefixed entry's key, the lookup misses, and the field
is left unset with no error. -/
theorem claim_C3_amended_env_override (pre NAME v : String)
    (hpre : pre ≠ "")
    (htag : parseTag ("env:" ++ NAME) = .ok { envName := NAME })
    (hne : NAME ≠ "") :
    (Parse pre (.ptr (.strct (c3Fields NAME))) (.ptr (some (.strct [.str ""])))
        [(goToUpper pre ++ "_" ++ NAME, v)] =
      (.ptr (some (.strct [.str v])), none))
    ∧ (goHasPre NAME (goToUpper pre ++ "_") = false →
        Parse pre (.ptr (.strct (c3Fields NAME))) (.ptr (some (.strct [.str ""])))
            [(NAME, v)] =
          (.ptr (some (.strct [.str v])), none))
    ∧ (goHasPre NAME (goToUpper pre ++ "_") = true →
        Parse pre (.ptr (.strct (c3Fields NAME))) (.ptr (some (.strct [.str ""])))
            [(NAME, v)] =
          (.ptr (some (.strct [.str ""])), none)) := by
  have hX := c3_extract NAME htag hne
  have hpre' : (pre == "") = false := by
    simp only [beq_eq_false_iff_ne, ne_eq]
    exact hpre
  have hne' : (NAME != "") = true := by
    simp only [bne, Bool.not_eq_true', beq_eq_false_iff_ne, ne_eq]
    exact hne
  refine ⟨?_, ?_, ?_⟩
  · have hkept : goHasPre (goToUpper pre ++ "_" ++ NAME ++ "=" ++ v)
        (goToUpper pre ++ "_") = true := by
      show listIsPre (goToUpper pre ++ "_").toList
        ((((goToUpper pre ++ "_").toList ++ NAME.toList) ++ "=".toList) ++ v.toList) = true
      rw [List.append_assoc, List.append_assoc]
      exact listIsPre_self_append _ _
    have hsnap : newEnv pre [NAME] [(goToUpper pre ++ "_" ++ NAME, v)]
        = [(goToUpper NAME, v)] := by
      rw [newEnv]
      simp only [hpre', Bool.false_eq_true, if_false]
      rw [newEnvLoop]
      simp only [hkept, Bool.not_true, Bool.false_and, Bool.false_eq_true, if_false]
      rw [newEnvLoop, goTrimPre_self_append]
      rfl
    rw [Parse, hX]
    simp only [c3Desc, List.filterMap, List.length_cons, List.length_nil, hne', if_true,
      Nat.reduceBEq, Bool.false_eq_true, if_false, hsnap]
    have hhit : assocLookup [(goToUpper NAME, v)]
        (goToUpper (goJoin (goSplit NAME '_') "_")) = some v := by
      rw [goJoin_goSplit]
      simp [assocLookup]
    exact (c3_run NAME v _).1 hhit
  · intro hnp
    have hsnap : newEnv pre [NAME] [(NAME, v)] = [(goToUpper NAME, v)] := by
      rw [newEnv]
      simp only [hpre', Bool.false_eq_true, if_false]
      rw [newEnvLoop]
      simp only [List.contains_cons, beq_self_eq_true, Bool.true_or, Bool.not_true,
        Bool.and_false, Bool.false_eq_true, if_false]
      rw [newEnvLoop, goTrimPre]
      simp only [hnp, Bool.false_eq_true, if_false]
      rfl
    rw [Parse, hX]
    simp only [c3Desc, List.filterMap, List.length_cons, List.length_nil, hne', if_true,
      Nat.reduceBEq, Bool.false_eq_true, if_false, hsnap]
    have hhit : assocLookup [(goToUpper NAME, v)]
        (goToUpper (goJoin (goSplit NAME '_') "_")) = some v := by
      rw [goJoin_goSplit]
      simp [assocLookup]
    exact (c3_run NAME v _).1 hhit
  · intro hp
    have hsnap : newEnv pre [NAME] [(NAME, v)]
        = [(goToUpper (goTrimPre NAME (goToUpper pre ++ "_")), v)] := by
      rw [newEnv]
      simp only [hpre', Bool.false_eq_true, if_false]
      rw [newEnvLoop]
      simp only [List.contains_cons, beq_self_eq_true, Bool.true_or, Bool.not_true,
        Bool.and_false, Bool.false_eq_true, if_false]
      rw [newEnvLoop]
      rfl
    have hlen : ((goToUpper (goTrimPre NAME (goToUpper pre ++ "_"))) ==
        (goToUpper (goJoin (goSplit NAME '_') "_"))) = false := by
      apply str_beq_false_of_length
      rw [goJoin_goSplit, goTrimPre, if_pos hp, goToUpper_toList_length,
        goToUpper_toList_length]
      show (NAME.toList.drop (goToUpper pre ++ "_").toList.length).length
        ≠ NAME.toList.length
      have hle := listIsPre_length_le _ _ hp
      have hns : (goToUpper pre ++ "_").toList.length
          = (goToUpper pre).toList.length + 1 := by
        show ((goToUpper pre).toList ++ ['_']).length = _
        simp
      simp only [List.length_drop]
      omega
    rw [Parse, hX]
    simp only [c3Desc, List.filterMap, List.length_cons, List.length_nil, hne', if_true,
      Nat.reduceBEq, Bool.false_eq_true, if_false, hsnap]
    have hmiss : assocLookup [(goToUpper (goTrimPre NAME (goToUpper pre ++ "_")), v)]
        (goToUpper (goJoin (goSplit NAME '_') "_")) = none := by
      simp [assocLookup, hlen]
    exact (c3_run NAME v _).2 hmiss

/-- Witness for the amended C3: the README's AWS example with namespace
`"TEST"` — both `TEST_AWS_ACCESS_KEY_ID` and the unprefixed
`AWS_ACCESS_KEY_ID` bind the field — and the degenerate override `env:A_B`
under namespace `"A"`, where the unprefixed entry `A_B` is stripped to `B`
and does not bind the field. -/
theorem claim_C3_witness :
    (Parse "TEST" (.ptr (.strct (c3Fields "AWS_ACCESS_KEY_ID")))
        (.ptr (some (.strct [.str ""]))) [("TEST_AWS_ACCESS_KEY_ID", "secret")] =
      (.ptr (some (.strct [.str "secret"])), none))
    ∧ (Parse "TEST" (.ptr (.strct (c3Fields "AWS_ACCESS_KEY_ID")))
        (.ptr (some (.strct [.str ""]))) [("AWS_ACCESS_KEY_ID", "secret")] =
      (.ptr (some (.strct [.str "secret"])), none))
    ∧ (Parse "A" (.ptr (.strct (c3Fields "A_B")))
        (.ptr (some (.strct [.str ""]))) [("A_B", "x")] =
      (.ptr (some (.strct [.str ""])), none)) :=
  ⟨(claim_C3_amended_env_override "TEST" "AWS_ACCESS_KEY_ID" "secret" (by decide) rfl
      (by decide)).1,
   (claim_C3_amended_env_override "TEST" "AWS_ACCESS_KEY_ID" "secret" (by decide) rfl
      (by decide)).2.1 (by decide),
   (claim_C3_amended_env_override "A" "A_B" "x" (by decide) rfl (by decide)).2.2
      (by decide)⟩

/-! ## Claim C4: the required-field error message -/

/-- **C4**: evaluating `Parse` at the failing input — the package's own
`required-env-missing-error-message` test case: a `required` int field named
`TestInt`, namespace `"test"`, empty environment.  The message contains the
declared field name but NOT the resolved environment key `TEST_TEST_INT`
that the claim (and the package's test, src/conf_test.go) demands. -/
theorem claim_C4_required_error_message :
    Parse "test" requiredIntTy (.ptr (some (.strct [.int 0, .str "", .bool false]))) [] =
      (.ptr (some (.strct [.int 0, .str "", .bool false])), some (.requiredMissing "TestInt")) ∧
    (ParseErr.requiredMissing "TestInt").message = "required field TestInt is missing value" ∧
    goContains (ParseErr.requiredMissing "TestInt").message "TestInt" = true ∧
    goContains (ParseErr.requiredMissing "TestInt").message "TEST_TEST_INT" = false :=
  ⟨rfl, rfl, rfl, rfl⟩

end Conf

namespace Conf

/-! ## Claim C5: name-path computation -/

theorem extractField_leaf (pre : List String) (meta : FieldMeta) (opts : FieldOptions)
    (fk : List String) (ty : Ty) (v : Value)
    (hs : ∀ fs, ty ≠ Ty.strct fs) (hp : ∀ inner, ty ≠ Ty.ptr inner)
    (he : opts.envName = "") :
    extractField pre meta opts fk ty v =
      (v, .ok (0, [{ name := meta.name, envKeys := fk, path := [], ty := ty,
                     options := opts }])) := by
  cases ty <;>
    first
      | exact ((hp _ rfl).elim)
      | exact ((hs _ rfl).elim)
      | simp [extractField, he]

/-- **C5**: name-path segments come from case/digit-boundary splitting —
`FOOBar` splits to `FOO`,`Bar` (an uppercase run keeps its last letter for
the next word), `AnInt` to `An`,`Int`, and transitions into a digit split
(`Port8080`, `A2`); an untagged scalar leaf binds under the parent prefix
extended by its own name's segments; a field inside an anonymous/embedded
struct is extracted under the parent's prefix unchanged (the embedded type's
name contributes no segment), while a named nested struct field extends the
prefix with that field's own name segments; and on a concrete two-level
struct the computed keys come out accordingly. -/
theorem claim_C5_path_computation :
    camelSplit "FOOBar" = ["FOO", "Bar"] ∧
    camelSplit "AnInt" = ["An", "Int"] ∧
    camelSplit "Port8080" = ["Port", "8080"] ∧
    camelSplit "A2" = ["A", "2"] ∧
    (∀ (pre : List String) (idx : Nat) (name : String) (ty : Ty)
        (rest : List (FieldMeta × Ty)) (v : Value) (vrest : List Value),
      (∀ fs, ty ≠ Ty.strct fs) → (∀ inner, ty ≠ Ty.ptr inner) →
      extractLoop pre idx
          (({name := name, tag := "", canSet := true, anonymous := false}, ty) :: rest)
          (v :: vrest) =
        (match extractLoop pre (idx + 1) rest vrest with
         | (vrest', res) =>
             (v :: vrest',
              res.map (fun rds =>
                ({ name := name, envKeys := pre ++ camelSplit name,
                   path := [.fieldIdx idx], ty := ty, options := {} } : FieldD) :: rds)))) ∧
    (∀ (pre : List String) (meta : FieldMeta) (opts : FieldOptions) (fk : List String)
        (fs : List (FieldMeta × Ty)) (vs : List Value),
      meta.anonymous = true →
      extractField pre meta opts fk (.strct fs) (.strct vs) =
        (match extractLoop pre 0 fs vs with
         | (vs', res) => (.strct vs', res.map (fun ds => (0, ds))))) ∧
    (∀ (pre : List String) (meta : FieldMeta) (opts : FieldOptions) (fk : List String)
        (fs : List (FieldMeta × Ty)) (vs : List Value),
      meta.anonymous = false →
      extractField pre meta opts fk (.strct fs) (.strct vs) =
        (match extractLoop fk 0 fs vs with
         | (vs', res) => (.strct vs', res.map (fun ds => (0, ds))))) ∧
    ((extractFields none nestedTy
        (.ptr (some (.strct [.strct [.str ""], .strct [.str ""]])))).2.toOption.map
      (fun ds => ds.map (fun d => d.envKeys)) = some [["IP", "Name"], ["Duration"]]) := by
  refine ⟨rfl, rfl, rfl, rfl, ?_, ?_, ?_, rfl⟩
  · intro pre idx name ty rest v vrest hs hp
    have hEF := extractField_leaf pre
      {name := name, tag := "", canSet := true, anonymous := false} {}
      (pre ++ camelSplit name) ty v hs hp rfl
    rw [extractLoop]
    rcases hrest : extractLoop pre (idx + 1) rest vrest with ⟨vrest', res⟩
    simp [hEF, hrest, List.replicate, show parseTag "" = .ok {} from rfl]
  · intro pre meta opts fk fs vs h
    simp [extractField, h]
  · intro pre meta opts fk fs vs h
    simp [extractField, h]

/-- Witness for C5's quantified parts at concrete inputs. -/
theorem claim_C5_witness :
    extractLoop ["Pre"] 0
        (({name := "AnInt", tag := "", canSet := true, anonymous := false}, Ty.int 64) :: [])
        (Value.int 0 :: []) =
      (match extractLoop ["Pre"] 1 [] [] with
       | (vrest', res) =>
           (Value.int 0 :: vrest',
            res.map (fun rds =>
              ({ name := "AnInt", envKeys := ["Pre"] ++ camelSplit "AnInt",
                 path := [.fieldIdx 0], ty := Ty.int 64, options := {} } : FieldD) :: rds))) ∧
    extractField ["Out"] {name := "Embed", tag := "", canSet := true, anonymous := true} {}
        (["Out"] ++ camelSplit "Embed")
        (.strct [({name := "Name", tag := "", canSet := true, anonymous := false}, Ty.str)])
        (.strct [.str ""]) =
      (match extractLoop ["Out"] 0
          [({name := "Name", tag := "", canSet := true, anonymous := false}, Ty.str)]
          [.str ""] with
       | (vs', res) => (.strct vs', res.map (fun ds => (0, ds)))) ∧
    extractField ["Out"] {name := "IP", tag := "", canSet := true, anonymous := false} {}
        (["Out"] ++ camelSplit "IP")
        (.strct [({name := "Name", tag := "", canSet := true, anonymous := false}, Ty.str)])
        (.strct [.str ""]) =
      (match extractLoop (["Out"] ++ camelSplit "IP") 0
          [({name := "Name", tag := "", canSet := true, anonymous := false}, Ty.str)]
          [.str ""] with
       | (vs', res) => (.strct vs', res.map (fun ds => (0, ds)))) :=
  ⟨claim_C5_path_computation.2.2.2.2.1 ["Pre"] 0 "AnInt" (Ty.int 64) [] (Value.int 0) []
     (fun _ h => Ty.noConfusion h) (fun _ h => Ty.noConfusion h),
   claim_C5_path_computation.2.2.2.2.2.1 ["Out"]
     {name := "Embed", tag := "", canSet := true, anonymous := true} {}
     (["Out"] ++ camelSplit "Embed") _ _ rfl,
   claim_C5_path_computation.2.2.2.2.2.2.1 ["Out"]
     {name := "IP", tag := "", canSet := true, anonymous := false} {}
     (["Out"] ++ camelSplit "IP") _ _ rfl⟩

end Conf

namespace Conf

/-! ## Claim C2: `required` gates presence, never content -/

theorem extractField_leaf_zero (pre : List String) (meta : FieldMeta) (opts : FieldOptions)
    (fk : List String) (ty : Ty) (hl : isLeafTy ty = true) (he : opts.envName = "") :
    extractField pre meta opts fk ty (zeroValue ty) =
      (zeroValue ty, .ok (0, [{ name := meta.name, envKeys := fk, path := [], ty := ty,
                                options := opts }])) := by
  cases ty
  case strct fs => exact absurd hl (by simp [isLeafTy])
  case ptr inner =>
    cases inner
    case strct fs => exact absurd hl (by simp [isLeafTy])
    all_goals simp [extractField, zeroValue, he]
  all_goals simp [extractField, zeroValue, he]

theorem c2_extract (name : String) (ty : Ty) (hl : isLeafTy ty = true) :
    extractFields none
        (.ptr (.strct [({name := name, tag := "required", canSet := true,
                         anonymous := false}, ty)]))
        (.ptr (some (.strct [zeroValue ty]))) =
      (.ptr (some (.strct [zeroValue ty])),
       .ok [{ name := name, envKeys := camelSplit name, path := [.deref, .fieldIdx 0],
              ty := ty, options := {required := true} }]) := by
  have hEF := extractField_leaf_zero []
    {name := name, tag := "required", canSet := true, anonymous := false}
    {required := true} (camelSplit name) ty hl rfl
  simp [extractFields, extractLoop, hEF, show parseTag "required" = .ok {required := true} from rfl,
    List.replicate, Except.map]

/-- **C2**: for a struct with one field marked `required` (of any leaf type),
`Parse` returns the required-field error exactly when the field's computed
key is absent from the environment snapshot; when the key is present with
any string value that coerces (including zero-equivalent values), no
required-field error is raised and the coerced value lands in the
destination. -/
theorem claim_C2_required_gates_presence (name pre : String) (ty : Ty)
    (environ : List (String × String)) (hl : isLeafTy ty = true) :
    ((Parse pre
        (.ptr (.strct [({name := name, tag := "required", canSet := true,
                         anonymous := false}, ty)]))
        (.ptr (some (.strct [zeroValue ty]))) environ).2 =
          some (.requiredMissing name) ↔
      assocLookup (newEnv pre [] environ) (goToUpper (goJoin (camelSplit name) "_")) = none) ∧
    (∀ (s : String) (w : Value),
      assocLookup (newEnv pre [] environ) (goToUpper (goJoin (camelSplit name) "_")) = some s →
      processField false s ty (zeroValue ty) = .ok w →
      Parse pre
          (.ptr (.strct [({name := name, tag := "required", canSet := true,
                           anonymous := false}, ty)]))
          (.ptr (some (.strct [zeroValue ty]))) environ =
        (.ptr (some (.strct [w])), none)) := by
  have hX := c2_extract name ty hl
  constructor
  · rw [Parse, hX]
    simp only [List.length_cons, List.length_nil]
    rcases hv : assocLookup (newEnv pre [] environ)
        (goToUpper (goJoin (camelSplit name) "_")) with _ | s
    · simp [processLoop, envValue, hv]
    · rcases hpf : processField false s ty (zeroValue ty) with e | w
      · simp [processLoop, envValue, hv, getPath, hpf]
      · simp [processLoop, envValue, hv, getPath, hpf]
  · intro s w hs hw
    rw [Parse, hX]
    simp [processLoop, envValue, hs, getPath, hw, setPath]

/-- Witness for C2: a required int bound from `"0"` succeeds with value `0`,
a required bool bound from `"false"` succeeds with `false`, and the same
required int fails when the environment is empty. -/
theorem claim_C2_witness :
    Parse "test"
        (.ptr (.strct [({name := "TestInt", tag := "required", canSet := true,
                         anonymous := false}, .int 64)]))
        (.ptr (some (.strct [zeroValue (.int 64)]))) [("TEST_TEST_INT", "0")] =
      (.ptr (some (.strct [.int 0])), none) ∧
    Parse "test"
        (.ptr (.strct [({name := "TestBool", tag := "required", canSet := true,
                         anonymous := false}, .bool)]))
        (.ptr (some (.strct [zeroValue .bool]))) [("TEST_TEST_BOOL", "false")] =
      (.ptr (some (.strct [.bool false])), none) ∧
    (Parse "test"
        (.ptr (.strct [({name := "TestInt", tag := "required", canSet := true,
                         anonymous := false}, .int 64)]))
        (.ptr (some (.strct [zeroValue (.int 64)]))) []).2 =
      some (.requiredMissing "TestInt") :=
  ⟨(claim_C2_required_gates_presence "TestInt" "test" (.int 64)
      [("TEST_TEST_INT", "0")] rfl).2 "0" (.int 0) rfl rfl,
   (claim_C2_required_gates_presence "TestBool" "test" .bool
      [("TEST_TEST_BOOL", "false")] rfl).2 "false" (.bool false) rfl rfl,
   (claim_C2_required_gates_presence "TestInt" "test" (.int 64) [] rfl).1.mpr rfl⟩

end Conf

namespace Conf

/-! ## Claim C1: generic list and path lemmas -/

theorem list_getCtx {α : Type} (ctx : List α) (v : α) (rest : List α) :
    (ctx ++ v :: rest)[ctx.length]? = some v := by
  induction ctx with
  | nil => simp
  | cons a t ih => simpa using ih

theorem list_setCtx {α : Type} (ctx : List α) (v w : α) (rest : List α) :
    (ctx ++ v :: rest).set ctx.length w = ctx ++ w :: rest := by
  induction ctx with
  | nil => rfl
  | cons a t ih => simp [List.set, ih]

theorem list_set_of_get {α : Type} (l : List α) (i : Nat) (a : α) (h : l[i]? = some a) :
    l.set i a = l := by
  induction l generalizing i with
  | nil => simp at h
  | cons x t ih =>
      cases i with
      | zero =>
          simp only [List.getElem?_cons_zero, Option.some.injEq] at h
          simp [List.set, h]
      | succ n =>
          simp only [List.getElem?_cons_succ] at h
          simp [List.set, ih n h]

theorem list_get_set {α : Type} (l : List α) (i : Nat) (a b : α) (h : l[i]? = some b) :
    (l.set i a)[i]? = some a := by
  induction l generalizing i with
  | nil => simp at h
  | cons x t ih =>
      cases i with
      | zero => simp [List.set]
      | succ n =>
          simp only [List.getElem?_cons_succ] at h
          simpa [List.set] using ih n h

theorem list_set_set {α : Type} (l : List α) (i : Nat) (a b : α) :
    (l.set i a).set i b = l.set i b := by
  induction l generalizing i with
  | nil => rfl
  | cons x t ih =>
      cases i with
      | zero => rfl
      | succ n => simp [List.set, ih]

theorem getPath_field (vs : List Value) (i : Nat) (q : List PathStep) (sub : Value)
    (h : vs[i]? = some sub) :
    getPath (.strct vs) (.fieldIdx i :: q) = getPath sub q := by
  simp [getPath, h]

theorem setPath_field (vs : List Value) (i : Nat) (q : List PathStep) (sub x : Value)
    (h : vs[i]? = some sub) :
    setPath (.strct vs) (.fieldIdx i :: q) x = .strct (vs.set i (setPath sub q x)) := by
  simp [setPath, h]

theorem envValue_path_irrelevant (snap : List (String × String)) (d : FieldD)
    (p : List PathStep) : envValue snap { d with path := p } = envValue snap d := rfl

end Conf

namespace Conf

/-! ## Claim C1: compositional lemmas for the resolution loop -/

theorem processLoop_cons (snap : List (String × String)) (d : FieldD) (rest : List FieldD)
    (v : Value) :
    processLoop snap (d :: rest) v =
      (match processStep snap d v with
       | (v1, some e) => (v1, some e)
       | (v1, none) => processLoop snap rest v1) := by
  rw [processLoop, processStep]
  by_cases hdv : (d.options.defaultVal != "") = true
  · simp only [hdv, if_true]
    rcases hpf : processField true d.options.defaultVal d.ty
        ((getPath v d.path).getD (zeroValue d.ty)) with e | w
    · simp
    · simp only []
      rcases henv : envValue snap d with _ | value
      · by_cases hreq : d.options.required = true <;> simp [hreq]
      · rcases hpf2 : processField false value d.ty
            ((getPath (setPath v d.path w) d.path).getD (zeroValue d.ty)) with e2 | w2 <;> simp [hpf2]
  · simp only [hdv, if_false]
    rcases henv : envValue snap d with _ | value
    · by_cases hreq : d.options.required = true <;> simp [hreq]
    · rcases hpf2 : processField false value d.ty
          ((getPath v d.path).getD (zeroValue d.ty)) with e2 | w2 <;> simp [hpf2]

theorem processLoop_append (snap : List (String × String)) (ds1 ds2 : List FieldD) :
    ∀ v, processLoop snap (ds1 ++ ds2) v =
      (match processLoop snap ds1 v with
       | (v1, none) => processLoop snap ds2 v1
       | (v1, some e) => (v1, some e)) := by
  induction ds1 with
  | nil => intro v; simp [processLoop]
  | cons d rest ih =>
      intro v
      rw [List.cons_append, processLoop_cons, processLoop_cons]
      rcases processStep snap d v with ⟨v1, r⟩
      cases r with
      | none => simp [ih v1]
      | some e => simp

theorem processStep_field (snap : List (String × String)) (d : FieldD) (i : Nat)
    (vs : List Value) (sub : Value) (h : vs[i]? = some sub) :
    processStep snap { d with path := .fieldIdx i :: d.path } (.strct vs) =
      (match processStep snap d sub with
       | (sub', r) => (.strct (vs.set i sub'), r)) := by
  rw [processStep, processStep]
  by_cases hdv : (d.options.defaultVal != "") = true
  · simp only [hdv, if_true, getPath_field vs i d.path sub h]
    rcases hpf : processField true d.options.defaultVal d.ty
        ((getPath sub d.path).getD (zeroValue d.ty)) with e | w
    · simp [list_set_of_get _ _ _ h]
    · simp only [setPath_field vs i d.path sub _ h, envValue_path_irrelevant]
      rcases henv : envValue snap d with _ | value
      · by_cases hreq : d.options.required = true <;> simp [hreq]
      · rw [getPath_field (vs.set i (setPath sub d.path w)) i d.path (setPath sub d.path w)
            (list_get_set vs i (setPath sub d.path w) sub h)]
        rcases hpf2 : processField false value d.ty
            ((getPath (setPath sub d.path w) d.path).getD (zeroValue d.ty)) with e2 | w2
        · simp [hpf2]
        · simp [hpf2, setPath_field (vs.set i (setPath sub d.path w)) i d.path
            (setPath sub d.path w) _ (list_get_set vs i (setPath sub d.path w) sub h),
            list_set_set]
  · simp only [hdv, if_false, envValue_path_irrelevant]
    rcases henv : envValue snap d with _ | value
    · by_cases hreq : d.options.required = true <;>
        simp [hreq, list_set_of_get _ _ _ h]
    · rcases hpf2 : processField false value d.ty
          ((getPath sub d.path).getD (zeroValue d.ty)) with e2 | w2
      · simp [getPath_field vs i d.path sub h, hpf2, list_set_of_get _ _ _ h]
      · simp [getPath_field vs i d.path sub h, hpf2, setPath_field vs i d.path sub _ h]

theorem processStep_deref (snap : List (String × String)) (d : FieldD) (p : Value) :
    processStep snap { d with path := .deref :: d.path } (.ptr (some p)) =
      (match processStep snap d p with
       | (p', r) => (.ptr (some p'), r)) := by
  rw [processStep, processStep]
  by_cases hdv : (d.options.defaultVal != "") = true
  · simp only [hdv, if_true, getPath, setPath, envValue_path_irrelevant]
    rcases hpf : processField true d.options.defaultVal d.ty
        ((getPath p d.path).getD (zeroValue d.ty)) with e | w
    · simp
    · simp only []
      rcases henv : envValue snap d with _ | value
      · by_cases hreq : d.options.required = true <;> simp [hreq]
      · simp only [getPath, setPath]
        rcases hpf2 : processField false value d.ty
            ((getPath (setPath p d.path w) d.path).getD (zeroValue d.ty)) with e2 | w2 <;> simp [hpf2]
  · simp only [hdv, if_false, envValue_path_irrelevant]
    rcases henv : envValue snap d with _ | value
    · by_cases hreq : d.options.required = true <;> simp [hreq]
    · rcases hpf2 : processField false value d.ty
          ((getPath p d.path).getD (zeroValue d.ty)) with e2 | w2 <;>
        simp [getPath, setPath, hpf2]

theorem processLoop_lift_field (snap : List (String × String)) (ds : List FieldD) (i : Nat) :
    ∀ (vs : List Value) (sub : Value), vs[i]? = some sub →
    processLoop snap (ds.map (fun d => { d with path := .fieldIdx i :: d.path })) (.strct vs) =
      (match processLoop snap ds sub with
       | (sub', r) => (.strct (vs.set i sub'), r)) := by
  induction ds with
  | nil =>
      intro vs sub h
      simp [processLoop, list_set_of_get _ _ _ h]
  | cons d rest ih =>
      intro vs sub h
      rw [List.map_cons, processLoop_cons, processLoop_cons,
        processStep_field snap d i vs sub h]
      rcases processStep snap d sub with ⟨sub1, r⟩
      cases r with
      | some e => simp
      | none =>
          simp only []
          rw [ih (vs.set i sub1) sub1 (list_get_set vs i sub1 sub h)]
          rcases processLoop snap rest sub1 with ⟨sub2, r2⟩
          simp [list_set_set]

theorem processLoop_lift_deref (snap : List (String × String)) (ds : List FieldD) :
    ∀ p : Value,
    processLoop snap (ds.map (fun d => { d with path := .deref :: d.path })) (.ptr (some p)) =
      (match processLoop snap ds p with
       | (p', r) => (.ptr (some p'), r)) := by
  induction ds with
  | nil => intro p; simp [processLoop]
  | cons d rest ih =>
      intro p
      rw [List.map_cons, processLoop_cons, processLoop_cons, processStep_deref snap d p]
      rcases processStep snap d p with ⟨p1, r⟩
      cases r with
      | some e => simp
      | none => simp [ih p1]

end Conf

namespace Conf

/-! ## Claim C1: the defaults-only induction -/

theorem allocField_skip (meta : FieldMeta) (ty : Ty)
    (hskip : (!meta.canSet || meta.tag == "-") = true) :
    allocField meta ty = zeroValue ty := by
  cases ty
  case ptr inner =>
    cases inner <;> (rw [allocField]; simp [hskip]) <;> (intro _ h; cases h)
  all_goals (rw [allocField]; simp [hskip]) <;> (intro _ h; cases h)

theorem allocField_leaf (meta : FieldMeta) (ty : Ty)
    (hnostrct : ∀ fs, ty ≠ Ty.strct fs)
    (hnops : ∀ fs, ty ≠ Ty.ptr (Ty.strct fs)) :
    allocField meta ty = zeroValue ty := by
  cases ty
  case strct fs => exact ((hnostrct _ rfl).elim)
  case ptr inner =>
    cases inner
    case strct fs => exact ((hnops _ rfl).elim)
    all_goals (rw [allocField]; split <;> simp [zeroValue]) <;> (intro _ h; cases h)
  all_goals (rw [allocField]; split <;> simp [zeroValue]) <;> (intro _ h; cases h)

theorem specDefaultedField_leaf (meta : FieldMeta) (ty : Ty)
    (hskip' : (!meta.canSet || meta.tag == "-") = false)
    (hnostrct : ∀ fs, ty ≠ Ty.strct fs)
    (hnops : ∀ fs, ty ≠ Ty.ptr (Ty.strct fs)) :
    specDefaultedField meta ty =
      (match parseTag meta.tag with
       | .ok opts =>
           if opts.defaultVal != "" then
             match processField true opts.defaultVal ty (zeroValue ty) with
             | .ok w => w
             | .error _ => zeroValue ty
           else zeroValue ty
       | .error _ => zeroValue ty) := by
  cases ty
  case strct fs => exact ((hnostrct _ rfl).elim)
  case ptr inner =>
    cases inner
    case strct fs => exact ((hnops _ rfl).elim)
    all_goals (rw [specDefaultedField]; simp [hskip']) <;> (intro _ h; cases h)
  all_goals (rw [specDefaultedField]; simp [hskip']) <;> (intro _ h; cases h)

theorem c1LeafStep (pre : List String) (idx : Nat) (meta : FieldMeta) (opts : FieldOptions)
    (ty : Ty) (rest : List (FieldMeta × Ty)) (rds : List FieldD)
    (hleaf : isLeafTy ty = true)
    (hnostrct : ∀ fs, ty ≠ Ty.strct fs)
    (hnops : ∀ fs, ty ≠ Ty.ptr (Ty.strct fs))
    (hskip' : (!meta.canSet || meta.tag == "-") = false)
    (hpt : parseTag meta.tag = .ok opts)
    (hreq : opts.required = false) (henv0 : opts.envName = "")
    (hdef : (opts.defaultVal == "" ||
      isOkE (processField true opts.defaultVal ty (zeroValue ty))) = true)
    (hre : extractLoop pre (idx + 1) rest (zeroFields rest) = (allocFields rest, .ok rds))
    (hrdsenv : ∀ d ∈ rds, d.options.envName = "")
    (hproc : ∀ (snap : List (String × String)), (∀ d ∈ rds, envValue snap d = none) →
        ∀ (ctx : List Value), ctx.length = idx + 1 →
          processLoop snap rds (.strct (ctx ++ allocFields rest)) =
            (.strct (ctx ++ specDefaulted rest), none)) :
    ∃ ds, extractLoop pre idx ((meta, ty) :: rest) (zeroValue ty :: zeroFields rest) =
        (zeroValue ty :: allocFields rest, .ok ds)
      ∧ (∀ d ∈ ds, d.options.envName = "")
      ∧ (∀ (snap : List (String × String)), (∀ d ∈ ds, envValue snap d = none) →
          ∀ (ctx : List Value), ctx.length = idx →
            processLoop snap ds (.strct (ctx ++ zeroValue ty :: allocFields rest)) =
              (.strct (ctx ++ specDefaultedField meta ty :: specDefaulted rest), none)) := by
  refine ⟨{ name := meta.name, envKeys := pre ++ camelSplit meta.name,
            path := [.fieldIdx idx], ty := ty, options := opts } :: rds, ?_, ?_, ?_⟩
  · rw [extractLoop]
    simp [hskip', hpt, extractField_leaf_zero pre meta opts (pre ++ camelSplit meta.name) ty
      hleaf henv0, hre, List.replicate, Except.map]
  · intro d hd
    rcases List.mem_cons.mp hd with hh | ht
    · rw [hh]; exact henv0
    · exact hrdsenv d ht
  · intro snap hsnap ctx hctx
    have hhead := hsnap _ (List.mem_cons_self _ _)
    have hget : (ctx ++ zeroValue ty :: allocFields rest)[idx]? = some (zeroValue ty) := by
      rw [← hctx]; exact list_getCtx ctx (zeroValue ty) (allocFields rest)
    rw [processLoop_cons, processStep]
    by_cases hdv : opts.defaultVal = ""
    · simp only [hdv, ne_eq, String.reduceEq]
      simp only [hhead, hreq]
      rw [show (("" != "") = false) from rfl]
      simp only [Bool.false_eq_true, if_false]
      have := hproc snap (fun d hd => hsnap d (List.mem_cons_of_mem _ hd))
        (ctx ++ [zeroValue ty]) (by simp [hctx])
      rw [show ctx ++ zeroValue ty :: allocFields rest
          = (ctx ++ [zeroValue ty]) ++ allocFields rest by simp]
      rw [this]
      rw [specDefaultedField_leaf meta ty hskip' hnostrct hnops]
      simp [hpt, hdv]
    · have hdv' : (opts.defaultVal != "") = true := by simp [hdv]
      have hok : isOkE (processField true opts.defaultVal ty (zeroValue ty)) = true := by
        rcases Bool.or_eq_true_iff.mp hdef with hc | hc
        · exact absurd (by simpa using hc) hdv
        · exact hc
      rcases hw : processField true opts.defaultVal ty (zeroValue ty) with e | w
      · rw [hw] at hok; simp [isOkE] at hok
      · simp only [hdv', if_true]
        rw [getPath_field (ctx ++ zeroValue ty :: allocFields rest) idx []
          (zeroValue ty) hget]
        simp only [getPath, Option.getD_some, hw]
        rw [setPath_field (ctx ++ zeroValue ty :: allocFields rest) idx []
          (zeroValue ty) w hget]
        simp only [setPath]
        rw [show (ctx ++ zeroValue ty :: allocFields rest).set idx w
            = ctx ++ w :: allocFields rest by rw [← hctx]; exact list_setCtx _ _ _ _]
        simp only [hhead, hreq]
        simp only [Bool.false_eq_true, if_false]
        have := hproc snap (fun d hd => hsnap d (List.mem_cons_of_mem _ hd))
          (ctx ++ [w]) (by simp [hctx])
        rw [show ctx ++ w :: allocFields rest = (ctx ++ [w]) ++ allocFields rest by simp]
        rw [this]
        rw [specDefaultedField_leaf meta ty hskip' hnostrct hnops]
        simp [hpt, hdv', hw]

end Conf

namespace Conf

theorem c1Main (fs : List (FieldMeta × Ty)) (pre : List String) (idx : Nat)
    (h : c1FieldsOk fs = true) :
    ∃ ds, extractLoop pre idx fs (zeroFields fs) = (allocFields fs, .ok ds)
      ∧ (∀ d ∈ ds, d.options.envName = "")
      ∧ (∀ (snap : List (String × String)), (∀ d ∈ ds, envValue snap d = none) →
          ∀ (ctx : List Value), ctx.length = idx →
            processLoop snap ds (.strct (ctx ++ allocFields fs)) =
              (.strct (ctx ++ specDefaulted fs), none)) := by
  match fs with
  | [] =>
      refine ⟨[], by rw [extractLoop]; rfl, by simp, ?_⟩
      intro snap _ ctx _
      simp [processLoop, allocFields, specDefaulted]
  | (meta, ty) :: rest =>
      have hh := h
      rw [c1FieldsOk, Bool.and_eq_true] at hh
      obtain ⟨h1, h2⟩ := hh
      obtain ⟨rds, hre, hrdsenv, hproc⟩ := c1Main rest pre (idx + 1) h2
      have hzf : zeroFields ((meta, ty) :: rest) = zeroValue ty :: zeroFields rest := rfl
      have haf : allocFields ((meta, ty) :: rest)
          = allocField meta ty :: allocFields rest := rfl
      have hsd : specDefaulted ((meta, ty) :: rest)
          = specDefaultedField meta ty :: specDefaulted rest := rfl
      rw [hzf, haf, hsd]
      by_cases hskip : (!meta.canSet || meta.tag == "-") = true
      · rw [allocField_skip meta ty hskip]
        refine ⟨rds, ?_, hrdsenv, ?_⟩
        · rw [extractLoop]
          simp [hskip, hre]
        · intro snap hsnap ctx hctx
          have hspec : specDefaultedField meta ty = zeroValue ty := by
            cases ty
            case ptr inner =>
              cases inner <;> (rw [specDefaultedField]; simp [hskip]) <;>
                (intro _ h; cases h)
            all_goals (rw [specDefaultedField]; simp [hskip]) <;> (intro _ h; cases h)
          have hstep := hproc snap hsnap (ctx ++ [zeroValue ty]) (by simp [hctx])
          rw [show ctx ++ zeroValue ty :: allocFields rest
              = (ctx ++ [zeroValue ty]) ++ allocFields rest by simp]
          rw [hstep, hspec]
          simp
      · have hskip' : (!meta.canSet || meta.tag == "-") = false := by
          revert hskip
          cases (!meta.canSet || meta.tag == "-") <;> simp
        rcases hpt : parseTag meta.tag with e | opts
        · exfalso
          rw [c1FieldOk] at h1
          simp [hskip', hpt] at h1
        · have h1' := h1
          rw [c1FieldOk] at h1'
          simp only [hskip', Bool.false_eq_true, if_false, hpt, Bool.and_eq_true] at h1'
          obtain ⟨⟨hreqb, henvb⟩, hmt⟩ := h1'
          have hreq : opts.required = false := by
            revert hreqb
            cases opts.required <;> simp
          have henv0 : opts.envName = "" := by simpa using henvb
          cases ty with
          | strct fs' =>
              have halloc : allocField meta (Ty.strct fs')
                  = Value.strct (allocFields fs') := by
                rw [allocField]; simp [hskip']
              rw [halloc]
              obtain ⟨ids, hie, hienv, hiproc⟩ :=
                c1Main fs' (if meta.anonymous then pre
                            else pre ++ camelSplit meta.name) 0 hmt
              refine ⟨ids.map (fun d => { d with path := .fieldIdx idx :: d.path }) ++ rds,
                ?_, ?_, ?_⟩
              · rw [extractLoop]
                rw [show zeroValue (Ty.strct fs') = Value.strct (zeroFields fs') from rfl]
                simp [hskip', hpt, extractField, hie, hre, List.replicate, Except.map]
              · intro d hd
                rcases List.mem_append.mp hd with hm | hm
                · obtain ⟨d0, hd0, rfl⟩ := List.mem_map.mp hm
                  exact hienv d0 hd0
                · exact hrdsenv d hm
              · intro snap hsnap ctx hctx
                have hinnerEnv : ∀ d ∈ ids, envValue snap d = none := by
                  intro d hd
                  have := hsnap { d with path := .fieldIdx idx :: d.path }
                    (List.mem_append.mpr (Or.inl (List.mem_map.mpr ⟨d, hd, rfl⟩)))
                  simpa [envValue_path_irrelevant] using this
                have hrestEnv : ∀ d ∈ rds, envValue snap d = none := fun d hd =>
                  hsnap d (List.mem_append.mpr (Or.inr hd))
                have hget : (ctx ++ Value.strct (allocFields fs') :: allocFields rest)[idx]?
                    = some (Value.strct (allocFields fs')) := by
                  rw [← hctx]
                  exact list_getCtx _ _ _
                rw [processLoop_append]
                rw [processLoop_lift_field snap ids idx _ _ hget]
                have hin := hiproc snap hinnerEnv [] rfl
                simp only [List.nil_append] at hin
                rw [hin]
                have hset : (ctx ++ Value.strct (allocFields fs') :: allocFields rest).set idx
                      (Value.strct (specDefaulted fs'))
                    = ctx ++ Value.strct (specDefaulted fs') :: allocFields rest := by
                  rw [← hctx]
                  exact list_setCtx _ _ _ _
                have hspec : specDefaultedField meta (Ty.strct fs')
                    = Value.strct (specDefaulted fs') := by
                  rw [specDefaultedField]
                  simp [hskip']
                simp only [hset, hspec]
                have hstep := hproc snap hrestEnv (ctx ++ [Value.strct (specDefaulted fs')])
                  (by simp [hctx])
                rw [show ctx ++ Value.strct (specDefaulted fs') :: allocFields rest
                    = (ctx ++ [Value.strct (specDefaulted fs')]) ++ allocFields rest by simp]
                rw [hstep]
                simp
          | ptr inner =>
              cases inner with
              | strct fs' =>
                  have halloc : allocField meta (Ty.ptr (Ty.strct fs'))
                      = Value.ptr (some (Value.strct (allocFields fs'))) := by
                    rw [allocField]; simp [hskip']
                  rw [halloc]
                  obtain ⟨ids, hie, hienv, hiproc⟩ :=
                    c1Main fs' (if meta.anonymous then pre
                                else pre ++ camelSplit meta.name) 0 hmt
                  refine ⟨ids.map (fun d =>
                      { d with path := .fieldIdx idx :: .deref :: d.path }) ++ rds,
                    ?_, ?_, ?_⟩
                  · rw [extractLoop]
                    rw [show zeroValue (Ty.ptr (Ty.strct fs')) = Value.ptr none from rfl]
                    simp [hskip', hpt, extractField, hie, hre, List.replicate, Except.map]
                  · intro d hd
                    rcases List.mem_append.mp hd with hm | hm
                    · obtain ⟨d0, hd0, rfl⟩ := List.mem_map.mp hm
                      exact hienv d0 hd0
                    · exact hrdsenv d hm
                  · intro snap hsnap ctx hctx
                    have hinnerEnv : ∀ d ∈ ids, envValue snap d = none := by
                      intro d hd
                      have := hsnap { d with path := .fieldIdx idx :: .deref :: d.path }
                        (List.mem_append.mpr (Or.inl (List.mem_map.mpr ⟨d, hd, rfl⟩)))
                      simpa [envValue_path_irrelevant] using this
                    have hrestEnv : ∀ d ∈ rds, envValue snap d = none := fun d hd =>
                      hsnap d (List.mem_append.mpr (Or.inr hd))
                    have hcomp : ids.map (fun d =>
                          { d with path := .fieldIdx idx :: .deref :: d.path })
                        = (ids.map (fun d => { d with path := PathStep.deref :: d.path })).map
                            (fun d => { d with path := .fieldIdx idx :: d.path }) := by
                      rw [List.map_map]
                      rfl
                    have hget : (ctx ++ Value.ptr (some (Value.strct (allocFields fs')))
                          :: allocFields rest)[idx]?
                        = some (Value.ptr (some (Value.strct (allocFields fs')))) := by
                      rw [← hctx]
                      exact list_getCtx _ _ _
                    rw [hcomp, processLoop_append]
                    rw [processLoop_lift_field snap _ idx _ _ hget]
                    rw [processLoop_lift_deref]
                    have hin := hiproc snap hinnerEnv [] rfl
                    simp only [List.nil_append] at hin
                    rw [hin]
                    have hset : (ctx ++ Value.ptr (some (Value.strct (allocFields fs')))
                            :: allocFields rest).set idx
                          (Value.ptr (some (Value.strct (specDefaulted fs'))))
                        = ctx ++ Value.ptr (some (Value.strct (specDefaulted fs')))
                            :: allocFields rest := by
                      rw [← hctx]
                      exact list_setCtx _ _ _ _
                    have hspec : specDefaultedField meta (Ty.ptr (Ty.strct fs'))
                        = Value.ptr (some (Value.strct (specDefaulted fs'))) := by
                      rw [specDefaultedField]
                      simp [hskip']
                    simp only [hset, hspec]
                    have hstep := hproc snap hrestEnv
                      (ctx ++ [Value.ptr (some (Value.strct (specDefaulted fs')))])
                      (by simp [hctx])
                    rw [show ctx ++ Value.ptr (some (Value.strct (specDefaulted fs')))
                          :: allocFields rest
                        = (ctx ++ [Value.ptr (some (Value.strct (specDefaulted fs')))])
                          ++ allocFields rest by simp]
                    rw [hstep]
                    simp
              | str =>
                  rw [allocField_leaf meta _ (fun _ h => Ty.noConfusion h)
                    (by intro _ h; cases h)]
                  exact c1LeafStep pre idx meta opts _ rest rds rfl
                    (fun _ h => Ty.noConfusion h) (by intro _ h; cases h)
                    hskip' hpt hreq henv0 hmt hre hrdsenv hproc
              | int bits =>
                  rw [allocField_leaf meta _ (fun _ h => Ty.noConfusion h)
                    (by intro _ h; cases h)]
                  exact c1LeafStep pre idx meta opts _ rest rds rfl
                    (fun _ h => Ty.noConfusion h) (by intro _ h; cases h)
                    hskip' hpt hreq henv0 hmt hre hrdsenv hproc
              | uint bits =>
                  rw [allocField_leaf meta _ (fun _ h => Ty.noConfusion h)
                    (by intro _ h; cases h)]
                  exact c1LeafStep pre idx meta opts _ rest rds rfl
                    (fun _ h => Ty.noConfusion h) (by intro _ h; cases h)
                    hskip' hpt hreq henv0 hmt hre hrdsenv hproc
              | bool =>
                  rw [allocField_leaf meta _ (fun _ h => Ty.noConfusion h)
                    (by intro _ h; cases h)]
                  exact c1LeafStep pre idx meta opts _ rest rds rfl
                    (fun _ h => Ty.noConfusion h) (by intro _ h; cases h)
                    hskip' hpt hreq henv0 hmt hre hrdsenv hproc
              | slice t =>
                  rw [allocField_leaf meta _ (fun _ h => Ty.noConfusion h)
                    (by intro _ h; cases h)]
                  exact c1LeafStep pre idx meta opts _ rest rds rfl
                    (fun _ h => Ty.noConfusion h) (by intro _ h; cases h)
                    hskip' hpt hreq henv0 hmt hre hrdsenv hproc
              | map kt vt =>
                  rw [allocField_leaf meta _ (fun _ h => Ty.noConfusion h)
                    (by intro _ h; cases h)]
                  exact c1LeafStep pre idx meta opts _ rest rds rfl
                    (fun _ h => Ty.noConfusion h) (by intro _ h; cases h)
                    hskip' hpt hreq henv0 hmt hre hrdsenv hproc
              | ptr inner2 =>
                  rw [allocField_leaf meta _ (fun _ h => Ty.noConfusion h)
                    (by intro _ h; cases h)]
                  exact c1LeafStep pre idx meta opts _ rest rds rfl
                    (fun _ h => Ty.noConfusion h) (by intro _ h; cases h)
                    hskip' hpt hreq henv0 hmt hre hrdsenv hproc
          | str =>
              rw [allocField_leaf meta _ (fun _ h => Ty.noConfusion h)
                (fun _ h => Ty.noConfusion h)]
              exact c1LeafStep pre idx meta opts _ rest rds rfl
                (fun _ h => Ty.noConfusion h) (fun _ h => Ty.noConfusion h)
                hskip' hpt hreq henv0 hmt hre hrdsenv hproc
          | int bits =>
              rw [allocField_leaf meta _ (fun _ h => Ty.noConfusion h)
                (fun _ h => Ty.noConfusion h)]
              exact c1LeafStep pre idx meta opts _ rest rds rfl
                (fun _ h => Ty.noConfusion h) (fun _ h => Ty.noConfusion h)
                hskip' hpt hreq henv0 hmt hre hrdsenv hproc
          | uint bits =>
              rw [allocField_leaf meta _ (fun _ h => Ty.noConfusion h)
                (fun _ h => Ty.noConfusion h)]
              exact c1LeafStep pre idx meta opts _ rest rds rfl
                (fun _ h => Ty.noConfusion h) (fun _ h => Ty.noConfusion h)
                hskip' hpt hreq henv0 hmt hre hrdsenv hproc
          | bool =>
              rw [allocField_leaf meta _ (fun _ h => Ty.noConfusion h)
                (fun _ h => Ty.noConfusion h)]
              exact c1LeafStep pre idx meta opts _ rest rds rfl
                (fun _ h => Ty.noConfusion h) (fun _ h => Ty.noConfusion h)
                hskip' hpt hreq henv0 hmt hre hrdsenv hproc
          | slice t =>
              rw [allocField_leaf meta _ (fun _ h => Ty.noConfusion h)
                (fun _ h => Ty.noConfusion h)]
              exact c1LeafStep pre idx meta opts _ rest rds rfl
                (fun _ h => Ty.noConfusion h) (fun _ h => Ty.noConfusion h)
                hskip' hpt hreq henv0 hmt hre hrdsenv hproc
          | map kt vt =>
              rw [allocField_leaf meta _ (fun _ h => Ty.noConfusion h)
                (fun _ h => Ty.noConfusion h)]
              exact c1LeafStep pre idx meta opts _ rest rds rfl
                (fun _ h => Ty.noConfusion h) (fun _ h => Ty.noConfusion h)
                hskip' hpt hreq henv0 hmt hre hrdsenv hproc
termination_by tyFieldsSize fs
decreasing_by
  all_goals
    subst_vars
  all_goals
    simp [tyFieldsSize, tySize]
  all_goals
    omega

end Conf

namespace Conf

/-- C1 (amended): for every destination struct in which each writable field
either declares a `default:<value>` directive that coerces successfully,
declares no directive at all, or is skipped, with no `env:` overrides and no
`required` fields — `c1FieldsOk` — when the environment snapshot contains no
entry matching any extracted descriptor's computed key (`c1EnvAbsent`),
`Parse` succeeds and the bound struct equals `specDefaulted`: defaulted
fields hold their declared defaults coerced to the field type and untagged
non-pointer fields keep their zero values, but a non-skipped
pointer-to-struct field does not retain its nil zero value — extraction
allocates it and its pointee's fields are bound recursively — and a
defaulted pointer-to-leaf field points at its coerced default (only untagged
pointer fields whose pointee is not a struct stay nil). -/
theorem claim_C1_defaults_only (pre : String) (environ : List (String × String))
    (fs : List (FieldMeta × Ty))
    (hok : c1FieldsOk fs = true)
    (henv : c1EnvAbsent pre environ fs) :
    Parse pre (.ptr (.strct fs)) (.ptr (some (.strct (zeroFields fs)))) environ =
      (.ptr (some (.strct (specDefaulted fs))), none) := by
  obtain ⟨ds, hext, hdsenv, hproc⟩ := c1Main fs [] 0 hok
  have hEF : extractFields none (.ptr (.strct fs)) (.ptr (some (.strct (zeroFields fs)))) =
      (.ptr (some (.strct (allocFields fs))),
       .ok (ds.map (fun d => { d with path := .deref :: d.path }))) := by
    rw [extractFields]
    simp [hext, Except.map]
  rw [c1EnvAbsent, hEF] at henv
  obtain ⟨hlen, habsent⟩ := henv
  have hnames : (ds.map (fun d => { d with path := .deref :: d.path })).filterMap
      (fun f : FieldD =>
        if f.options.envName != "" then some f.options.envName else none) = [] := by
    rw [List.filterMap_eq_nil_iff]
    intro d hd
    obtain ⟨d0, hd0, rfl⟩ := List.mem_map.mp hd
    simp [hdsenv d0 hd0]
  have hlen' : ((ds.map (fun d => { d with path := .deref :: d.path })).length == 0) =
      false := by
    simp at hlen ⊢
    simpa using hlen
  rw [Parse, hEF]
  simp only [hlen', hnames, if_false, Bool.false_eq_true]
  rw [processLoop_lift_deref]
  have habsent' : ∀ d ∈ ds, envValue (newEnv pre [] environ) d = none := by
    intro d hd
    have := habsent { d with path := .deref :: d.path } (List.mem_map.mpr ⟨d, hd, rfl⟩)
    simpa [envValue_path_irrelevant] using this
  have hmain := hproc (newEnv pre [] environ) habsent' [] rfl
  simp only [List.nil_append] at hmain
  rw [hmain]

end Conf

namespace Conf

/-- The defaults-only expectation evaluates as intended on the concrete
configuration: defaulted leaves hold their coerced defaults, untagged and
unwritable leaves their zero values, across nesting and embedding; the
untagged pointer-to-struct field is allocated and recursively defaulted, the
defaulted pointer-to-leaf field points at its coerced default, and the
untagged pointer-to-leaf field stays nil. -/
theorem c1WitnessFields_defaults :
    specDefaulted c1WitnessFields =
      [.str "localhost", .int 8080, .bool false,
       .strct [.uint 2], .strct [.bool true], .str "",
       .ptr (some (.strct [.int 3])), .ptr (some (.uint 7)), .ptr none] := rfl

/-- **C1 counterexample** (refuting the original claim's zero-retention for
untagged fields): a defaults-only struct whose only field is an untagged
`*struct`, starting from the zero value (a nil pointer), with an empty
environment.  `Parse` succeeds but the field does not retain its zero value:
the drilling loop of `extractField` (field.go lines 89-101) allocates the
nil pointer-to-struct field, so it comes back pointing at a zeroed struct. -/
theorem claim_C1_counterexample :
    Parse "TEST" (.ptr (.strct c1PtrFields))
        (.ptr (some (.strct (zeroFields c1PtrFields)))) [] =
      (.ptr (some (.strct [.ptr (some (.strct [.int 0]))])), none) ∧
    zeroFields c1PtrFields = [.ptr none] ∧
    Value.ptr (some (.strct [.int 0])) ≠ Value.ptr none := by
  refine ⟨rfl, rfl, ?_⟩
  simp

/-- Witness for C1 at the concrete defaults-only configuration
`c1WitnessFields` with namespace "APP" and an environment holding only an
unrelated variable. -/
theorem claim_C1_witness :
    Parse "APP" (.ptr (.strct c1WitnessFields))
        (.ptr (some (.strct (zeroFields c1WitnessFields)))) [("OTHER", "x")] =
      (.ptr (some (.strct (specDefaulted c1WitnessFields))), none) :=
  claim_C1_defaults_only "APP" [("OTHER", "x")] c1WitnessFields (by decide)
    (by rw [c1EnvAbsent]; exact ⟨by decide, by decide⟩)

end Conf
